import Mathlib

/-!
Verification development for the skills reconciliation tool
(detector/converter core of the Better-skills repository).

The filesystem is modelled as a finite tree of directories, regular files
and symbolic links.  Paths are lists of name components together with an
absolute/relative flag, mirroring Node's string paths.  Filesystem
primitives (`lstatSync`, `readdirSync`, `symlinkSync`, ...) are embedded as
total functions over the tree; operations that resolve symbolic links take
a fuel argument that is consumed only at symlink indirections, so that a
cyclic link chain yields the ELOOP error, exactly as the runtime does.
The detector (`detectSkills`, `analyzeSkill`, `parseFrontmatter`,
`countReferences`, `getDirectorySizeKb`) is read-only and is embedded as
pure functions; the converter (`convertSkill`, `convertSkills`) threads the
filesystem state explicitly, and models `Effect.try` by an `Except` result
paired with the (possibly partially modified) filesystem.
-/

namespace BetterSkills
/-- A path: absolute flag plus name components.  Components may include
the special names "." and ".." (unresolved, as in Node path strings). -/
structure TPath where
  absolute : Bool
  comps : List String
deriving DecidableEq, Repr

/-- A component is a plain name: not empty, not "." and not "..". -/
def plainName (s : String) : Bool :=
  s ≠ "" && s ≠ "." && s ≠ ".."

/-- Core of path normalization: process components left to right keeping a
reversed stack, "." is dropped, ".." pops (at the root it stays at the
root, as for absolute paths in Node). -/
def normGo : List String → List String → List String
  | stack, [] => stack.reverse
  | stack, c :: t =>
    if c = "." then normGo stack t
    else if c = ".." then normGo stack.tail t
    else normGo (c :: stack) t

/-- Normalize a component list (resolve "." and ".." textually). -/
def pnorm (cs : List String) : List String := normGo [] cs

/-- Model of `path.join(dir, name)` for a plain name component. -/
def pjoin (p : TPath) (n : String) : TPath :=
  ⟨p.absolute, p.comps ++ [n]⟩

/-- Model of `path.dirname`. -/
def pdirname (p : TPath) : TPath :=
  ⟨p.absolute, p.comps.dropLast⟩

/-- Model of `path.basename`. -/
def pbasename (p : TPath) : String :=
  p.comps.getLastD ""

/-- Model of `path.resolve(base, p)` for an absolute base. -/
def presolve (base : TPath) (p : TPath) : TPath :=
  if p.absolute then ⟨true, pnorm p.comps⟩ else ⟨true, pnorm (base.comps ++ p.comps)⟩

/-- Model of one-argument `path.resolve(p)` for an absolute p (the process
working directory, irrelevant for absolute paths, is taken as the root). -/
def presolve1 (p : TPath) : TPath :=
  ⟨true, pnorm p.comps⟩

/-- Length of the longest common leading run of two component lists. -/
def commonLen : List String → List String → Nat
  | a :: as, b :: bs => if a = b then commonLen as bs + 1 else 0
  | _, _ => 0

/-- Model of `path.relative(fromP, toP)` for absolute normalized inputs:
climb out of the non-shared part of `fromP`, then descend into `toP`. -/
def prelative (fromP toP : TPath) : TPath :=
  let k := commonLen fromP.comps toP.comps
  ⟨false, List.replicate (fromP.comps.length - k) ".." ++ toP.comps.drop k⟩

/-- A filesystem node: regular file (size in bytes, text content, an
executable-permission bit), directory (readable flag and named children,
in directory order), or symbolic link storing its raw target path. -/
inductive FNode where
  | file (size : Nat) (content : String) (exec : Bool)
  | dir (readable : Bool) (children : List (String × FNode))
  | symlink (target : TPath)
deriving Repr

/-- Association lookup among directory children. -/
def getChild : List (String × FNode) → String → Option FNode
  | [], _ => none
  | (m, v) :: t, n => if m = n then some v else getChild t n

/-- Structural walk from a node along components, entering directories
only (no symlink resolution, no "."/".." handling): the lookup used once
a path is known to be fully resolved. -/
def walkReal : FNode → List String → Option FNode
  | node, [] => some node
  | FNode.dir _ ch, c :: t =>
    match getChild ch c with
    | some v => walkReal v t
    | none => none
  | _, _ :: _ => none

/-- Replace (`some v`) or remove (`none`) the child named `n` of the
directory reached from `node` along the real path `pth`; identity when the
path does not lead to a directory. -/
def setChild : List String → String → Option FNode → FNode → FNode
  | [], n, v, FNode.dir r ch =>
    FNode.dir r (match v with
      | some v' =>
        if (ch.find? (fun e => e.1 = n)).isSome
        then ch.map (fun e => if e.1 = n then (e.1, v') else e)
        else ch ++ [(n, v')]
      | none => ch.filter (fun e => e.1 ≠ n))
  | c :: t, n, v, FNode.dir r ch =>
    FNode.dir r (ch.map (fun e => if e.1 = c then (e.1, setChild t n v e.2) else e))
  | _, _, _, node => node

/-- Outcome of walking components until the first symbolic link. -/
inductive WalkRes where
  | done (rp : List String)
  | hop (restart : List String)
  | fail (e : String)

/-- Walk components from the already-resolved path `cur`, handling "." and
".." and stopping at the first symbolic link with the restart component
list (link target spliced in front of the remaining components). -/
def walkToSym (root : FNode) (cur : List String) : List String → WalkRes
  | [] => WalkRes.done cur
  | c :: rest =>
    if c = "." then walkToSym root cur rest
    else if c = ".." then walkToSym root cur.dropLast rest
    else
      match walkReal root (cur ++ [c]) with
      | none => WalkRes.fail "ENOENT: no such file or directory"
      | some (FNode.symlink t) =>
        WalkRes.hop ((if t.absolute then t.comps else cur ++ t.comps) ++ rest)
      | some _ => walkToSym root (cur ++ [c]) rest

/-- Full path resolution (the semantics of `realpathSync` and of the
intermediate-component resolution every syscall performs): follow symbolic
links, consuming one unit of fuel per link hop; fuel exhaustion models the
ELOOP failure of a link cycle. -/
def resolveComps (root : FNode) : Nat → List String → List String → Except String (List String)
  | fuel, cur, rest =>
    match walkToSym root cur rest with
    | WalkRes.done rp => Except.ok rp
    | WalkRes.fail e => Except.error e
    | WalkRes.hop restart =>
      match fuel with
      | 0 => Except.error "ELOOP: too many levels of symbolic links"
      | Nat.succ f => resolveComps root f [] restart

/-- Model of `fs.lstatSync`: resolve all but the last component, then look
the last one up without following it. -/
def lstatN (fuel : Nat) (root : FNode) (p : TPath) : Except String FNode :=
  match p.comps.getLast? with
  | none => Except.ok root
  | some lastC =>
    match resolveComps root fuel [] p.comps.dropLast with
    | Except.error e => Except.error e
    | Except.ok rp =>
      match walkReal root (rp ++ [lastC]) with
      | some n => Except.ok n
      | none => Except.error "ENOENT: no such file or directory"

/-- Model of `fs.statSync`: resolve the whole path, links included. -/
def statN (fuel : Nat) (root : FNode) (p : TPath) : Except String FNode :=
  match resolveComps root fuel [] p.comps with
  | Except.error e => Except.error e
  | Except.ok rp =>
    match walkReal root rp with
    | some n => Except.ok n
    | none => Except.error "ENOENT: no such file or directory"

/-- Model of `fs.existsSync` (follows symbolic links; a dangling link does
not exist). -/
def existsN (fuel : Nat) (root : FNode) (p : TPath) : Bool :=
  (statN fuel root p).isOk

/-- Model of `fs.realpathSync`. -/
def realpathN (fuel : Nat) (root : FNode) (p : TPath) : Except String TPath :=
  match resolveComps root fuel [] p.comps with
  | Except.error e => Except.error e
  | Except.ok rp => Except.ok ⟨true, rp⟩

/-- Model of `fs.readlinkSync`. -/
def readlinkN (fuel : Nat) (root : FNode) (p : TPath) : Except String TPath :=
  match lstatN fuel root p with
  | Except.ok (FNode.symlink t) => Except.ok t
  | Except.ok _ => Except.error "EINVAL: invalid argument"
  | Except.error e => Except.error e

/-- Directory-entry kind, as reported by `readdirSync` with file types
(the kind of the child itself, symbolic links not followed). -/
inductive DKind where
  | file
  | dir
  | symlink
deriving DecidableEq, Repr

/-- The dirent kind of a node. -/
def kindOf : FNode → DKind
  | FNode.file _ _ _ => DKind.file
  | FNode.dir _ _ => DKind.dir
  | FNode.symlink _ => DKind.symlink

/-- Model of `fs.readdirSync(p, withFileTypes)`: fails on a missing path,
a non-directory, or an unreadable directory. -/
def readdirN (fuel : Nat) (root : FNode) (p : TPath) : Except String (List (String × DKind)) :=
  match statN fuel root p with
  | Except.error e => Except.error e
  | Except.ok (FNode.dir true ch) => Except.ok (ch.map (fun e => (e.1, kindOf e.2)))
  | Except.ok (FNode.dir false _) => Except.error "EACCES: permission denied"
  | Except.ok _ => Except.error "ENOTDIR: not a directory"

/-- Model of `fs.readFileSync` (follows symbolic links). -/
def readFileN (fuel : Nat) (root : FNode) (p : TPath) : Except String String :=
  match statN fuel root p with
  | Except.error e => Except.error e
  | Except.ok (FNode.file _ c _) => Except.ok c
  | Except.ok _ => Except.error "EISDIR: illegal operation on a directory"

/-- Outcome of a `mkdir -p` walk up to the first symbolic link. -/
inductive MkdirRes where
  | done (root : FNode)
  | hop (root : FNode) (restart : List String)
  | fail (e : String)

/-- Walk components creating missing directories (readable, empty), up to
the first symbolic link; an existing regular file on the way fails. -/
def mkdirWalk (root : FNode) (cur : List String) : List String → MkdirRes
  | [] => MkdirRes.done root
  | c :: rest =>
    if c = "." then mkdirWalk root cur rest
    else if c = ".." then mkdirWalk root cur.dropLast rest
    else
      match walkReal root (cur ++ [c]) with
      | none => mkdirWalk (setChild cur c (some (FNode.dir true [])) root) (cur ++ [c]) rest
      | some (FNode.dir _ _) => mkdirWalk root (cur ++ [c]) rest
      | some (FNode.symlink t) =>
        MkdirRes.hop root ((if t.absolute then t.comps else cur ++ t.comps) ++ rest)
      | some (FNode.file _ _ _) => MkdirRes.fail "EEXIST: file already exists"

/-- Model of `fs.mkdirSync(p, recursive)`. -/
def mkdirRecN (root : FNode) : Nat → List String → Except String FNode
  | fuel, rest =>
    match mkdirWalk root [] rest with
    | MkdirRes.done r => Except.ok r
    | MkdirRes.fail e => Except.error e
    | MkdirRes.hop r restart =>
      match fuel with
      | 0 => Except.error "ELOOP: too many levels of symbolic links"
      | Nat.succ f => mkdirRecN r f restart

/-- Resolve the parent of `p` and return it with the final component. -/
def resolveParent (fuel : Nat) (root : FNode) (p : TPath) :
    Except String (List String × String) :=
  match p.comps.getLast? with
  | none => Except.error "EINVAL: invalid argument"
  | some lastC =>
    match resolveComps root fuel [] p.comps.dropLast with
    | Except.error e => Except.error e
    | Except.ok rp => Except.ok (rp, lastC)

/-- Model of `fs.symlinkSync(target, linkPath)`: the link path must not
already exist and its parent must resolve to a directory. -/
def symlinkN (fuel : Nat) (root : FNode) (target : TPath) (linkPath : TPath) :
    Except String FNode :=
  match resolveParent fuel root linkPath with
  | Except.error e => Except.error e
  | Except.ok (rp, n) =>
    match walkReal root rp with
    | some (FNode.dir _ ch) =>
      match getChild ch n with
      | some _ => Except.error "EEXIST: file already exists"
      | none => Except.ok (setChild rp n (some (FNode.symlink target)) root)
    | some _ => Except.error "ENOTDIR: not a directory"
    | none => Except.error "ENOENT: no such file or directory"

/-- Model of `fs.unlinkSync`: removes a file or a symbolic link itself. -/
def unlinkN (fuel : Nat) (root : FNode) (p : TPath) : Except String FNode :=
  match resolveParent fuel root p with
  | Except.error e => Except.error e
  | Except.ok (rp, n) =>
    match walkReal root rp with
    | some (FNode.dir _ ch) =>
      match getChild ch n with
      | some (FNode.dir _ _) => Except.error "EISDIR: illegal operation on a directory"
      | some _ => Except.ok (setChild rp n none root)
      | none => Except.error "ENOENT: no such file or directory"
    | _ => Except.error "ENOENT: no such file or directory"

/-- Model of `fs.rmSync(p, recursive, force)`: removes the subtree or
link at `p` without following the final component; with `force`, a
missing path (or missing parent) is not an error. -/
def rmRecN (fuel : Nat) (root : FNode) (p : TPath) : Except String FNode :=
  match resolveParent fuel root p with
  | Except.error _ => Except.ok root
  | Except.ok (rp, n) =>
    match walkReal root rp with
    | some (FNode.dir _ ch) =>
      match getChild ch n with
      | some _ => Except.ok (setChild rp n none root)
      | none => Except.ok root
    | _ => Except.ok root

/-- Model of `fs.renameSync(fromP, toP)`: moves the node (a symbolic link
moves as a link); an existing directory at the destination is an error in
this model, an existing file or link is replaced. -/
def renameN (fuel : Nat) (root : FNode) (fromP toP : TPath) : Except String FNode :=
  match resolveParent fuel root fromP with
  | Except.error e => Except.error e
  | Except.ok (rpF, nF) =>
    match walkReal root rpF with
    | some (FNode.dir _ chF) =>
      match getChild chF nF with
      | none => Except.error "ENOENT: no such file or directory"
      | some node =>
        match resolveParent fuel root toP with
        | Except.error e => Except.error e
        | Except.ok (rpT, nT) =>
          match walkReal root rpT with
          | some (FNode.dir _ chT) =>
            match getChild chT nT with
            | some (FNode.dir _ _) => Except.error "ENOTEMPTY: directory not empty"
            | _ =>
              Except.ok (setChild rpT nT (some node) (setChild rpF nF none root))
          | _ => Except.error "ENOENT: no such file or directory"
    | _ => Except.error "ENOENT: no such file or directory"

/-- Model of `fs.copyFileSync` (follows symbolic links on the source;
replaces the destination). -/
def copyFileN (fuel : Nat) (root : FNode) (fromP toP : TPath) : Except String FNode :=
  match statN fuel root fromP with
  | Except.error e => Except.error e
  | Except.ok (FNode.file s c e) =>
    (match resolveParent fuel root toP with
     | Except.error e2 => Except.error e2
     | Except.ok (rp, n) =>
       match walkReal root rp with
       | some (FNode.dir _ _) => Except.ok (setChild rp n (some (FNode.file s c e)) root)
       | _ => Except.error "ENOENT: no such file or directory")
  | Except.ok _ => Except.error "EISDIR: illegal operation on a directory"

/-- Model of `fs.chmodSync` restricted to what the converter uses: set the
executable bit of the (fully resolved) regular file at `p`. -/
def chmodExecN (fuel : Nat) (root : FNode) (p : TPath) : Except String FNode :=
  match resolveComps root fuel [] p.comps with
  | Except.error e => Except.error e
  | Except.ok [] => Except.ok root
  | Except.ok rp =>
    match walkReal root rp with
    | some (FNode.file s c _) =>
      Except.ok (setChild rp.dropLast (rp.getLastD "") (some (FNode.file s c true)) root)
    | some _ => Except.ok root
    | none => Except.error "ENOENT: no such file or directory"

/-! ## Detector embedding (src/detector.ts) -/

/-- Does `pat` occur as an initial run of `l`? -/
def initSegC : List Char → List Char → Bool
  | [], _ => true
  | _ :: _, [] => false
  | a :: as, b :: bs => a = b && initSegC as bs

/-- First index at which `pat` occurs in `l`. -/
def findSub : List Char → List Char → Option Nat
  | l, pat =>
    if initSegC pat l then some 0
    else
      match l with
      | [] => none
      | _ :: t => (findSub t pat).map (· + 1)

/-- The capture of the frontmatter regular expression
`^---\n([\s\S]*?)\n---`: the content must start with a `---` line, and the
lazily matched group runs up to the earliest following `\n---`. -/
def fmMatch (content : String) : Option String :=
  let cs := content.toList
  if initSegC ['-', '-', '-', '\n'] cs then
    let rest := cs.drop 4
    match findSub rest ['\n', '-', '-', '-'] with
    | some i => some (String.mk (rest.take i))
    | none => none
  else none

/-- The behavior of the external structured-text parser (`yaml.parse`):
it may throw (`Except.error`), return null (`Except.ok none`), or return a
key-to-value mapping.  The detector is verified for every such parser. -/
def YamlParse : Type := String → Except String (Option (List (String × String)))

/-- Embedding of `parseFrontmatter`: no leading delimited block, a parser
failure, or a null parse all yield the empty mapping. -/
def parseFrontmatter (yamlP : YamlParse) (content : String) : List (String × String) :=
  match fmMatch content with
  | none => []
  | some captured =>
    match yamlP captured with
    | Except.error _ => []
    | Except.ok none => []
    | Except.ok (some m) => m

/-- Scanner state for counting matches of the wiki-style marker pattern
(two open brackets, one or more non-closing-bracket characters, two
closing brackets). -/
inductive WSt where
  | s0
  | s1
  | s2 (h : Bool)
  | s3 (h : Bool)

/-- Count non-overlapping matches of the wiki-marker pattern, as the
global regular-expression scan does (the pattern is deterministic: the
content run always ends at the first closing bracket). -/
def wikiGo : WSt → List Char → Nat
  | _, [] => 0
  | WSt.s0, c :: t => wikiGo (if c = '[' then WSt.s1 else WSt.s0) t
  | WSt.s1, c :: t => wikiGo (if c = '[' then WSt.s2 false else WSt.s0) t
  | WSt.s2 h, c :: t =>
    if c = ']' then wikiGo (WSt.s3 h) t else wikiGo (WSt.s2 true) t
  | WSt.s3 h, c :: t =>
    if c = ']' then (if h then wikiGo WSt.s0 t + 1 else wikiGo WSt.s0 t)
    else if c = '[' then wikiGo WSt.s1 t
    else wikiGo WSt.s0 t

/-- Scanner state for counting matches of the markdown-style link pattern
(bracketed non-empty label followed by parenthesized non-empty target). -/
inductive MSt where
  | m0
  | m1 (h : Bool)
  | m2
  | m3 (h : Bool)

/-- Count non-overlapping matches of the markdown link pattern. -/
def mdGo : MSt → List Char → Nat
  | _, [] => 0
  | MSt.m0, c :: t => mdGo (if c = '[' then MSt.m1 false else MSt.m0) t
  | MSt.m1 h, c :: t =>
    if c = ']' then (if h then mdGo MSt.m2 t else mdGo MSt.m0 t)
    else mdGo (MSt.m1 true) t
  | MSt.m2, c :: t =>
    if c = '(' then mdGo (MSt.m3 false) t
    else if c = '[' then mdGo (MSt.m1 false) t
    else mdGo MSt.m0 t
  | MSt.m3 h, c :: t =>
    if c = ')' then (if h then mdGo MSt.m0 t + 1 else mdGo MSt.m0 t)
    else mdGo (MSt.m3 true) t

/-- Embedding of `countReferences`: wiki markers plus markdown links. -/
def countReferences (content : String) : Nat :=
  wikiGo WSt.s0 content.toList + mdGo MSt.m0 content.toList

/-- Bytes contributed by one directory entry during the recursive size
walk of `getDirectorySizeKb`: regular files count their size, symbolic
links are not followed, an unreadable directory subtree is silently
skipped (its listing raises and the walk catches), a readable directory
contributes its entries recursively. -/
def direntBytes : FNode → Nat
  | FNode.file s _ _ => s
  | FNode.symlink _ => 0
  | FNode.dir false _ => 0
  | FNode.dir true ch => direntList ch
where direntList : List (String × FNode) → Nat
  | [] => 0
  | (_, n) :: t => direntBytes n + direntList t

/-- Embedding of `getDirectorySizeKb`: the recursive walk sums regular
file sizes under the (resolved) directory, and the result is
`Math.round(total / 1024)`; a path that is missing or not a listable
directory contributes nothing. -/
def getDirectorySizeKb (fuel : Nat) (root : FNode) (p : TPath) : Nat :=
  match statN fuel root p with
  | Except.ok (FNode.dir r ch) => (direntBytes (FNode.dir r ch) + 512) / 1024
  | _ => 0

/-- Embedding of the `DetectedSkill` record of src/types.ts. -/
structure DetectedSkill where
  name : String
  path : TPath
  hasSkillMd : Bool
  hasAgentsMd : Bool
  hasRules : Bool
  hasScripts : Bool
  hasTemplates : Bool
  hasReferences : Bool
  sizeKb : Nat
  frontmatter : List (String × String)
  isSymlink : Bool
  symlinkTarget : Option TPath
deriving DecidableEq, Repr

/-- Embedding of `analyzeSkill`: `Except.ok none` is the null return (no
manifest), `Except.error` a raised filesystem error (caught by callers). -/
def analyzeSkill (yamlP : YamlParse) (fuel : Nat) (root : FNode) (skillPath : TPath) :
    Except String (Option DetectedSkill) :=
  let skillMdPath := pjoin skillPath "SKILL.md"
  if existsN fuel root skillMdPath = false then Except.ok none
  else
    match lstatN fuel root skillPath with
    | Except.error e => Except.error e
    | Except.ok st =>
      let skillMdContent :=
        match readFileN fuel root skillMdPath with
        | Except.ok c => c
        | Except.error _ => ""
      Except.ok (some
        { name := pbasename skillPath
          path := skillPath
          hasSkillMd := true
          hasAgentsMd := existsN fuel root (pjoin skillPath "AGENTS.md")
          hasRules := existsN fuel root (pjoin skillPath "rules")
          hasScripts := existsN fuel root (pjoin skillPath "scripts")
          hasTemplates := existsN fuel root (pjoin skillPath "templates")
          hasReferences := decide (0 < countReferences skillMdContent)
          sizeKb := getDirectorySizeKb fuel root skillPath
          frontmatter := parseFrontmatter yamlP skillMdContent
          isSymlink := (match st with | FNode.symlink _ => true | _ => false)
          symlinkTarget := (match st with | FNode.symlink t => some t | _ => none) })

/-- The nested loop of `detectSkills` over the entries of a grouping
directory: only plain subdirectories are considered; an analysis error is
swallowed by the surrounding catch, keeping the entries already pushed. -/
def groupLoop (yamlP : YamlParse) (fuel : Nat) (root : FNode) (groupName : String)
    (skillPath : TPath) : List (String × DKind) → List DetectedSkill
  | [] => []
  | (nname, nkind) :: t =>
    if nkind = DKind.dir then
      match analyzeSkill yamlP fuel root (pjoin skillPath nname) with
      | Except.error _ => []
      | Except.ok none => groupLoop yamlP fuel root groupName skillPath t
      | Except.ok (some sk) =>
        { sk with name := groupName ++ "-" ++ sk.name } ::
          groupLoop yamlP fuel root groupName skillPath t
    else groupLoop yamlP fuel root groupName skillPath t

/-- The reserved-name test `name.startsWith("_")` of detectSkills, stated
on the character level: the name's first character is an underscore. -/
def nameStartsWithUnderscore (s : String) : Bool :=
  match s.data with
  | [] => false
  | c :: _ => c = '_'

/-- Processing of one first-level child of the scanned root: skip
non-directories and reserved names, resolve a symbolic-link child (a
dangling link is skipped), then either classify directly or treat the
child as a grouping directory. -/
def processEntry (yamlP : YamlParse) (fuel : Nat) (root : FNode) (dir : TPath)
    (name : String) (kind : DKind) : Except String (List DetectedSkill) :=
  if kind = DKind.file then Except.ok []
  else if nameStartsWithUnderscore name then Except.ok []
  else
    let skillPath := pjoin dir name
    match (if kind = DKind.symlink then realpathN fuel root skillPath
           else Except.ok skillPath) with
    | Except.error _ => Except.ok []
    | Except.ok actualPath =>
      if existsN fuel root (pjoin actualPath "SKILL.md") then
        match analyzeSkill yamlP fuel root skillPath with
        | Except.error e => Except.error e
        | Except.ok none => Except.ok []
        | Except.ok (some sk) => Except.ok [sk]
      else
        match readdirN fuel root actualPath with
        | Except.error _ => Except.ok []
        | Except.ok nes => Except.ok (groupLoop yamlP fuel root name skillPath nes)

/-- Fold of `processEntry` over the first-level listing. -/
def processEntries (yamlP : YamlParse) (fuel : Nat) (root : FNode) (dir : TPath) :
    List (String × DKind) → Except String (List DetectedSkill)
  | [] => Except.ok []
  | (name, kind) :: t =>
    match processEntry yamlP fuel root dir name kind with
    | Except.error e => Except.error e
    | Except.ok l =>
      match processEntries yamlP fuel root dir t with
      | Except.error e => Except.error e
      | Except.ok l2 => Except.ok (l ++ l2)

/-- The `Effect.try` block of `detectSkills`: a missing root yields the
empty list, otherwise the first-level listing is processed; a raised
error propagates. -/
def detectSkillsBody (yamlP : YamlParse) (fuel : Nat) (root : FNode) (dir : TPath) :
    Except String (List DetectedSkill) :=
  if existsN fuel root dir = false then Except.ok []
  else
    match readdirN fuel root dir with
    | Except.error e => Except.error e
    | Except.ok entries => processEntries yamlP fuel root dir entries

/-- Embedding of `detectSkills`: a raised error is converted by the
effect wrapper into the formatted detection failure. -/
def detectSkills (yamlP : YamlParse) (fuel : Nat) (root : FNode) (dir : TPath) :
    Except String (List DetectedSkill) :=
  match detectSkillsBody yamlP fuel root dir with
  | Except.error e => Except.error ("Failed to detect skills: " ++ e)
  | Except.ok l => Except.ok l

/-! ## Converter embedding (src/converter.ts)

The converter mutates the filesystem; each embedded operation takes the
current root and returns the new one.  `convertSkill` models the
`Effect.try` wrapper: its result is an `Except` (the effect's success or
typed-error channel) paired with the filesystem as left by the attempt. -/

/-- Embedding of `ConversionMode`. -/
inductive ConversionMode where
  | symlink
  | copy
  | move
deriving DecidableEq, Repr

/-- Embedding of `ConflictResolution`. -/
inductive ConflictResolution where
  | skip
  | overwrite
  | backup
deriving DecidableEq, Repr

/-- The action tags of `ConversionResult` in src/types.ts. -/
inductive ConvAction where
  | symlinked
  | copied
  | moved
  | skipped
  | backedUp
deriving DecidableEq, Repr

/-- Embedding of the `ConversionResult` record. -/
structure ConversionResult where
  skill : DetectedSkill
  success : Bool
  action : ConvAction
  error : Option String
  targetPath : TPath
deriving DecidableEq, Repr

/-- Embedding of `ensureDir`: create the directory recursively when the
path does not exist. -/
def ensureDir (fuel : Nat) (root : FNode) (dir : TPath) : Except String FNode :=
  if existsN fuel root dir then Except.ok root else mkdirRecN root fuel dir.comps

/-- Embedding of `removeDir`: recursive, forced removal guarded by an
existence check. -/
def removeDir (fuel : Nat) (root : FNode) (dir : TPath) : Except String FNode :=
  if existsN fuel root dir then rmRecN fuel root dir else Except.ok root

/-- Embedding of `isSymlinkTo`: the path is a symbolic link whose target,
resolved against the link's directory, equals the (normalized) target
path; any raised error yields false. -/
def isSymlinkTo (fuel : Nat) (root : FNode) (linkPath targetPath : TPath) : Bool :=
  match lstatN fuel root linkPath with
  | Except.ok (FNode.symlink _) =>
    match readlinkN fuel root linkPath with
    | Except.ok linkTarget =>
      decide (presolve (pdirname linkPath) linkTarget = presolve1 targetPath)
    | Except.error _ => false
  | _ => false

/-- Embedding of `createRelativeSymlink`. -/
def createRelativeSymlink (fuel : Nat) (root : FNode) (source target : TPath) :
    Except String FNode :=
  symlinkN fuel root (prelative (pdirname target) source) target

/-- Explicit depth-first traversal of `copyDir`: the stack holds frames of
(source dir, destination dir, entries not yet copied), processed exactly
in the source's recursion order.  One unit of fuel is consumed per step;
exhaustion models the stack overflow of copying a tree into itself. -/
def copyLoop : Nat → FNode → List (TPath × TPath × List (String × DKind)) →
    Except String FNode
  | _, root, [] => Except.ok root
  | 0, _, _ => Except.error "copy recursion limit exceeded"
  | Nat.succ fuel, root, (_, _, []) :: stack => copyLoop fuel root stack
  | Nat.succ fuel, root, (src, dest, (n, k) :: es) :: stack =>
    let s := pjoin src n
    let d := pjoin dest n
    match k with
    | DKind.dir =>
      (match ensureDir fuel root d with
       | Except.error e => Except.error e
       | Except.ok r1 =>
         match readdirN fuel r1 s with
         | Except.error e => Except.error e
         | Except.ok entries =>
           copyLoop fuel r1 ((s, d, entries) :: (src, dest, es) :: stack))
    | DKind.symlink =>
      (match readlinkN fuel root s with
       | Except.error e => Except.error e
       | Except.ok lt =>
         match symlinkN fuel root lt d with
         | Except.error e => Except.error e
         | Except.ok r1 => copyLoop fuel r1 ((src, dest, es) :: stack))
    | DKind.file =>
      (match copyFileN fuel root s d with
       | Except.error e => Except.error e
       | Except.ok r1 =>
         match statN fuel r1 s with
         | Except.error e => Except.error e
         | Except.ok (FNode.file _ _ true) =>
           (match chmodExecN fuel r1 d with
            | Except.error e => Except.error e
            | Except.ok r2 => copyLoop fuel r2 ((src, dest, es) :: stack))
         | Except.ok _ => copyLoop fuel r1 ((src, dest, es) :: stack))

/-- Embedding of `copyDir`: ensure the destination, list the source, copy
entries in order (subdirectories recursively, symbolic links verbatim,
regular files with their content, re-applying the executable bit). -/
def copyDir (fuel : Nat) (root : FNode) (src dest : TPath) : Except String FNode :=
  match ensureDir fuel root dest with
  | Except.error e => Except.error e
  | Except.ok r1 =>
    match readdirN fuel r1 src with
    | Except.error e => Except.error e
    | Except.ok entries => copyLoop fuel r1 [(src, dest, entries)]

/-- The overwrite conflict arm of `convertSkill`: unlink a symbolic link
at the target, recursively remove anything else. -/
def overwriteTarget (fuel : Nat) (root : FNode) (targetPath : TPath) :
    Except String FNode :=
  match lstatN fuel root targetPath with
  | Except.error e => Except.error e
  | Except.ok (FNode.symlink _) => unlinkN fuel root targetPath
  | Except.ok _ => removeDir fuel root targetPath

/-- Steps 4-5 of the reconciliation state machine: ensure the target root
exists, then execute the strategy. -/
def doStrategy (skill : DetectedSkill) (targetDir targetPath sourcePath : TPath)
    (mode : ConversionMode) (fuel : Nat) (root : FNode) :
    Except String ConversionResult × FNode :=
  match ensureDir fuel root targetDir with
  | Except.error e => (Except.error e, root)
  | Except.ok r1 =>
    match mode with
    | ConversionMode.symlink =>
      (match lstatN fuel r1 sourcePath with
       | Except.error e => (Except.error e, r1)
       | Except.ok st =>
         match (match st with
                | FNode.symlink _ => realpathN fuel r1 sourcePath
                | _ => Except.ok sourcePath) with
         | Except.error e => (Except.error e, r1)
         | Except.ok actualSource =>
           match createRelativeSymlink fuel r1 actualSource targetPath with
           | Except.error e => (Except.error e, r1)
           | Except.ok r2 =>
             (Except.ok { skill := skill, success := true,
                          action := ConvAction.symlinked, error := none,
                          targetPath := targetPath }, r2))
    | ConversionMode.copy =>
      (match lstatN fuel r1 sourcePath with
       | Except.error e => (Except.error e, r1)
       | Except.ok st =>
         match (match st with
                | FNode.symlink _ => realpathN fuel r1 sourcePath
                | _ => Except.ok sourcePath) with
         | Except.error e => (Except.error e, r1)
         | Except.ok actualSource =>
           match copyDir fuel r1 actualSource targetPath with
           | Except.error e => (Except.error e, r1)
           | Except.ok r2 =>
             (Except.ok { skill := skill, success := true,
                          action := ConvAction.copied, error := none,
                          targetPath := targetPath }, r2))
    | ConversionMode.move =>
      (match lstatN fuel r1 sourcePath with
       | Except.error e => (Except.error e, r1)
       | Except.ok (FNode.symlink _) =>
         (match realpathN fuel r1 sourcePath with
          | Except.error e => (Except.error e, r1)
          | Except.ok actualSource =>
            match copyDir fuel r1 actualSource targetPath with
            | Except.error e => (Except.error e, r1)
            | Except.ok r2 =>
              match unlinkN fuel r2 sourcePath with
              | Except.error e => (Except.error e, r2)
              | Except.ok r3 =>
                (Except.ok { skill := skill, success := true,
                             action := ConvAction.moved, error := none,
                             targetPath := targetPath }, r3))
       | Except.ok _ =>
         match renameN fuel r1 sourcePath targetPath with
         | Except.error e => (Except.error e, r1)
         | Except.ok r2 =>
           (Except.ok { skill := skill, success := true,
                        action := ConvAction.moved, error := none,
                        targetPath := targetPath }, r2))

/-- The body of `convertSkill` before the effect wrapper: existence and
already-linked checks, conflict policy, then the strategy. -/
def convertSkillCore (skill : DetectedSkill) (targetDir : TPath)
    (mode : ConversionMode) (conflictResolution : ConflictResolution)
    (now fuel : Nat) (root : FNode) : Except String ConversionResult × FNode :=
  let targetPath := pjoin targetDir skill.name
  let sourcePath := skill.path
  if (lstatN fuel root targetPath).isOk then
    let already :=
      match mode with
      | ConversionMode.symlink => isSymlinkTo fuel root targetPath sourcePath
      | _ => false
    if already then
      (Except.ok { skill := skill, success := true, action := ConvAction.skipped,
                   error := some "Already linked", targetPath := targetPath }, root)
    else
      match conflictResolution with
      | ConflictResolution.skip =>
        (Except.ok { skill := skill, success := true, action := ConvAction.skipped,
                     error := some "Already exists", targetPath := targetPath }, root)
      | ConflictResolution.backup =>
        (match ensureDir fuel root (pjoin targetDir "_backup") with
         | Except.error e => (Except.error e, root)
         | Except.ok r1 =>
           match renameN fuel r1 targetPath
               (pjoin (pjoin targetDir "_backup") (skill.name ++ "-" ++ toString now)) with
           | Except.error e => (Except.error e, r1)
           | Except.ok r2 => doStrategy skill targetDir targetPath sourcePath mode fuel r2)
      | ConflictResolution.overwrite =>
        (match overwriteTarget fuel root targetPath with
         | Except.error e => (Except.error e, root)
         | Except.ok r1 => doStrategy skill targetDir targetPath sourcePath mode fuel r1)
  else doStrategy skill targetDir targetPath sourcePath mode fuel root

/-- Embedding of `convertSkill`: the `Effect.try` catch converts any
raised error into the formatted conversion failure in the effect's error
channel. -/
def convertSkill (skill : DetectedSkill) (targetDir : TPath)
    (mode : ConversionMode) (conflictResolution : ConflictResolution)
    (now fuel : Nat) (root : FNode) : Except String ConversionResult × FNode :=
  match convertSkillCore skill targetDir mode conflictResolution now fuel root with
  | (Except.error e, r) =>
    (Except.error ("Failed to convert skill " ++ skill.name ++ ": " ++ e), r)
  | ok => ok

/-- Embedding of `convertSkills`: each entry's conversion failure is
caught and turned into a failed result; entries are processed
sequentially in input order. -/
def convertSkills (skills : List DetectedSkill) (targetDir : TPath)
    (mode : ConversionMode) (conflictResolution : ConflictResolution)
    (now fuel : Nat) (root : FNode) : List ConversionResult × FNode :=
  match skills with
  | [] => ([], root)
  | s :: rest =>
    let step := convertSkill s targetDir mode conflictResolution now fuel root
    let res :=
      match step.1 with
      | Except.ok cr => cr
      | Except.error e =>
        { skill := s, success := false, action := ConvAction.skipped,
          error := some e, targetPath := pjoin targetDir s.name }
    let next := convertSkills rest targetDir mode conflictResolution now fuel step.2
    (res :: next.1, next.2)

/-! ## Shape lemmas for the converter -/

/-- The action a strategy reports on success. -/
def strategyAction : ConversionMode → ConvAction
  | ConversionMode.symlink => ConvAction.symlinked
  | ConversionMode.copy => ConvAction.copied
  | ConversionMode.move => ConvAction.moved

/-! ## Concrete fixtures used by witnesses and counterexamples -/

/-- A detected entry named "a" living at /src/a. -/
def skillA : DetectedSkill :=
  { name := "a", path := ⟨true, ["src", "a"]⟩, hasSkillMd := true, hasAgentsMd := false,
    hasRules := false, hasScripts := false, hasTemplates := false, hasReferences := false,
    sizeKb := 0, frontmatter := [], isSymlink := false, symlinkTarget := none }

/-- A detected entry named "b" whose path /src/b will not exist. -/
def skillBMissing : DetectedSkill := { skillA with name := "b", path := ⟨true, ["src", "b"]⟩ }

/-- A detected entry named "c" living at /src/c. -/
def skillC : DetectedSkill := { skillA with name := "c", path := ⟨true, ["src", "c"]⟩ }

/-- The target root /tgt. -/
def tgtRoot : TPath := ⟨true, ["tgt"]⟩

/-- Filesystem with a source entry at /src/a and an empty target /tgt. -/
def fsSrcTgt : FNode := FNode.dir true [
  ("src", FNode.dir true [("a", FNode.dir true [("SKILL.md", FNode.file 10 "hello" false)])]),
  ("tgt", FNode.dir true [])]

/-- Filesystem with an empty target and no source entry at all. -/
def fsNoSrc : FNode := FNode.dir true [("tgt", FNode.dir true [])]

/-- Filesystem for the batch fixture: /src/a and /src/c exist, /src/b does not. -/
def fsBatch : FNode := FNode.dir true [
  ("src", FNode.dir true [
    ("a", FNode.dir true [("SKILL.md", FNode.file 10 "hello" false)]),
    ("c", FNode.dir true [("SKILL.md", FNode.file 10 "hi" false)])]),
  ("tgt", FNode.dir true [])]

/-- The failed middle result of the batch fixture. -/
def resBFailed : ConversionResult :=
  { skill := skillBMissing, success := false, action := ConvAction.skipped,
    error := some "Failed to convert skill b: ENOENT: no such file or directory",
    targetPath := ⟨true, ["tgt", "b"]⟩ }

/-- A structured-text parser that always throws. -/
def yamlErr : YamlParse := fun _ => Except.error "parse failure"

/-! ## C7 -/

/-- Modelled from the spec: the recursive sum, in bytes, of the sizes of
the regular files contained in a directory tree, where symbolic links are
not followed for sizing and an unreadable directory's subtree is skipped. -/
def sumRegularFileBytes : FNode → Nat
  | FNode.dir true ch => sumList ch
  | _ => 0
where sumList : List (String × FNode) → Nat
  | [] => 0
  | (_, FNode.file s _ _) :: t => s + sumList t
  | (_, n) :: t => sumRegularFileBytes n + sumList t

/-- The entry node holding one 1-byte regular file. -/
def nodeOneByte : FNode := FNode.dir true [("SKILL.md", FNode.file 1 "q" false)]

/-- Filesystem whose /b is an entry containing only a 1-byte manifest. -/
def fsOneByte : FNode := FNode.dir true [("b", nodeOneByte)]

/-- The entry classified at /b of `fsOneByte`. -/
def skOneByte : DetectedSkill :=
  { name := "b", path := ⟨true, ["b"]⟩, hasSkillMd := true, hasAgentsMd := false,
    hasRules := false, hasScripts := false, hasTemplates := false, hasReferences := false,
    sizeKb := 0, frontmatter := [], isSymlink := false, symlinkTarget := none }

/-- A target root holding the reconciler's backup directory and one
ordinary entry. -/
def fsReserved : FNode := FNode.dir true [
  ("_backup", FNode.dir true [("old", FNode.dir true [("SKILL.md", FNode.file 1 "q" false)])]),
  ("b", FNode.dir true [("SKILL.md", FNode.file 1 "q" false)])]

/-- The only entry detected in `fsReserved`. -/
def skReserved : DetectedSkill :=
  { name := "b", path := ⟨true, ["b"]⟩, hasSkillMd := true, hasAgentsMd := false,
    hasRules := false, hasScripts := false, hasTemplates := false, hasReferences := false,
    sizeKb := 0, frontmatter := [], isSymlink := false, symlinkTarget := none }

/-! ## C5 -/

/-- Filesystem whose /f is a regular file, not a directory. -/
def fsRootFile : FNode := FNode.dir true [("f", FNode.file 1 "q" false)]

/-- Filesystem whose scanned root contains one dangling symbolic link. -/
def fsDangling : FNode := FNode.dir true [
  ("root", FNode.dir true [("dang", FNode.symlink ⟨true, ["nowhere"]⟩)])]

/-! ## C10 -/

/-- Is the first component list an initial run of the second? -/
def initSeg : List String → List String → Bool
  | [], _ => true
  | _ :: _, [] => false
  | a :: as, b :: bs => a = b && initSeg as bs

/-- The symbolic-link conflict target of the overwrite fixture. -/
def fsLinkConflict : FNode := FNode.dir true [
  ("src", FNode.dir true [("a", FNode.dir true [("SKILL.md", FNode.file 10 "hello" false)])]),
  ("tgt", FNode.dir true [("a", FNode.symlink ⟨true, ["src", "a"]⟩)])]

/-- A source root whose only first-level child "group" holds exactly the
subdirectories "sub1" and "sub2" (grouping case: no manifest in "group"
itself). -/
def groupRoot (ch1 ch2 : List (String × FNode)) : FNode :=
  FNode.dir true [("group", FNode.dir true
    [("sub1", FNode.dir true ch1), ("sub2", FNode.dir true ch2)])]

/-- A source root whose only first-level child "group" holds the children
`chg` (direct case when `chg` contains the manifest). -/
def flatRoot (chg : List (String × FNode)) : FNode :=
  FNode.dir true [("group", FNode.dir true chg)]

/-! ## C2: chain and path lemmas -/

/-- All components of a list are plain names. -/
def plainComps (l : List String) : Prop := ∀ c ∈ l, plainName c = true

instance (l : List String) : Decidable (plainComps l) :=
  inferInstanceAs (Decidable (∀ c ∈ l, plainName c = true))

/-- The path consists of plain components naming directories reachable
from the node without any symbolic link. -/
def dirChain : FNode → List String → Bool
  | FNode.dir _ _, [] => true
  | FNode.dir _ ch, c :: t =>
    plainName c &&
      (match getChild ch c with
       | some m => dirChain m t
       | none => false)
  | _, _ => false

/-- Filesystem whose source entry /src/a is itself a symbolic link to the
real directory /data/real holding the manifest. -/
def fsIndirect : FNode := FNode.dir true [
  ("data", FNode.dir true [("real", FNode.dir true [("SKILL.md", FNode.file 10 "hi" false)])]),
  ("src", FNode.dir true [("a", FNode.symlink ⟨true, ["data", "real"]⟩)]),
  ("tgt", FNode.dir true [])]

/-- The entry at the symbolic-link path /src/a. -/
def skillIndirect : DetectedSkill :=
  { skillA with isSymlink := true, symlinkTarget := some ⟨true, ["data", "real"]⟩ }

theorem doStrategy_ok (skill : DetectedSkill) (targetDir targetPath sourcePath : TPath)
    (mode : ConversionMode) (fuel : Nat) (root : FNode) (r : ConversionResult)
    (h : (doStrategy skill targetDir targetPath sourcePath mode fuel root).1 = Except.ok r) :
    r = { skill := skill, success := true, action := strategyAction mode,
          error := none, targetPath := targetPath } := by
  unfold doStrategy at h
  repeat' split at h
  all_goals simp_all [strategyAction]

theorem convertSkillCore_ok (skill : DetectedSkill) (targetDir : TPath)
    (mode : ConversionMode) (conflictResolution : ConflictResolution)
    (now fuel : Nat) (root : FNode) (r : ConversionResult)
    (h : (convertSkillCore skill targetDir mode conflictResolution now fuel root).1 =
      Except.ok r) :
    r.skill = skill ∧ r.success = true ∧ r.targetPath = pjoin targetDir skill.name ∧
      ((r.action = strategyAction mode ∧ r.error = none) ∨
        (r.action = ConvAction.skipped ∧
          (r.error = some "Already linked" ∨ r.error = some "Already exists"))) := by
  simp only [convertSkillCore] at h
  repeat' split at h
  all_goals
    first
    | (have hd := doStrategy_ok _ _ _ _ _ _ _ _ h
       subst hd
       simp)
    | (simp_all; done)
    | (simp at h
       subst h
       simp)

theorem convertSkill_ok (skill : DetectedSkill) (targetDir : TPath)
    (mode : ConversionMode) (conflictResolution : ConflictResolution)
    (now fuel : Nat) (root : FNode) (r : ConversionResult)
    (h : (convertSkill skill targetDir mode conflictResolution now fuel root).1 =
      Except.ok r) :
    r.skill = skill ∧ r.success = true ∧ r.targetPath = pjoin targetDir skill.name ∧
      ((r.action = strategyAction mode ∧ r.error = none) ∨
        (r.action = ConvAction.skipped ∧
          (r.error = some "Already linked" ∨ r.error = some "Already exists"))) := by
  rcases hc : convertSkillCore skill targetDir mode conflictResolution now fuel root
    with ⟨res, fs⟩
  unfold convertSkill at h
  rw [hc] at h
  cases res with
  | error e => simp at h
  | ok cr =>
    simp at h
    subst h
    exact convertSkillCore_ok _ _ _ _ _ _ _ _ (by rw [hc])

theorem convertSkill_error (skill : DetectedSkill) (targetDir : TPath)
    (mode : ConversionMode) (conflictResolution : ConflictResolution)
    (now fuel : Nat) (root : FNode) (e : String)
    (h : (convertSkill skill targetDir mode conflictResolution now fuel root).1 =
      Except.error e) :
    ∃ m, e = "Failed to convert skill " ++ skill.name ++ ": " ++ m := by
  rcases hc : convertSkillCore skill targetDir mode conflictResolution now fuel root
    with ⟨res, fs⟩
  unfold convertSkill at h
  rw [hc] at h
  cases res with
  | error m =>
    simp at h
    exact ⟨m, h.symm⟩
  | ok cr => simp at h

/-! ## C1 -/

/-- C1 counterexample: a single reconciliation call on an entry whose
source path does not exist fails in the effect's error channel with the
formatted message; the failure is not captured into a returned
result record. -/
theorem convertSkill_throws_into_error_channel :
    (convertSkill skillA tgtRoot ConversionMode.symlink ConflictResolution.skip
      0 8 fsNoSrc).1 =
      Except.error "Failed to convert skill a: ENOENT: no such file or directory" := by
  rfl

/-- C1 (amended): `convertSkill` never throws a raw exception: it either
produces a result record, or fails in the typed error channel of the
returned effect with a message of the form
"Failed to convert skill name: cause"; it is the batch wrapper
`convertSkills` that converts such failures into skipped results. -/
theorem convertSkill_never_raises (skill : DetectedSkill) (targetDir : TPath)
    (mode : ConversionMode) (conflictResolution : ConflictResolution)
    (now fuel : Nat) (root : FNode) :
    (∃ r, (convertSkill skill targetDir mode conflictResolution now fuel root).1 =
        Except.ok r) ∨
      (∃ m, (convertSkill skill targetDir mode conflictResolution now fuel root).1 =
        Except.error ("Failed to convert skill " ++ skill.name ++ ": " ++ m)) := by
  rcases h : (convertSkill skill targetDir mode conflictResolution now fuel root).1
    with e | r
  · rcases convertSkill_error _ _ _ _ _ _ _ _ h with ⟨m, hm⟩
    exact Or.inr ⟨m, by rw [hm]⟩
  · exact Or.inl ⟨r, rfl⟩

/-! ## C3 -/

theorem convertSkills_skills_aux (targetDir : TPath) (mode : ConversionMode)
    (conflictResolution : ConflictResolution) (now fuel : Nat) :
    ∀ (skills : List DetectedSkill) (root : FNode),
      ((convertSkills skills targetDir mode conflictResolution now fuel root).1).map
        (fun r => r.skill) = skills := by
  intro skills
  induction skills with
  | nil => intro root; rfl
  | cons s rest ih =>
    intro root
    show (convertSkills (s :: rest) targetDir mode conflictResolution now fuel root).1.map
      (fun r => r.skill) = s :: rest
    rw [convertSkills]
    simp only [List.map_cons, List.cons.injEq]
    refine ⟨?_, ih _⟩
    rcases h : (convertSkill s targetDir mode conflictResolution now fuel root).1
      with e | cr
    · simp [h]
    · simp only [h]
      exact (convertSkill_ok _ _ _ _ _ _ _ _ h).1

theorem convertSkills_failed_aux (targetDir : TPath) (mode : ConversionMode)
    (conflictResolution : ConflictResolution) (now fuel : Nat) :
    ∀ (skills : List DetectedSkill) (root : FNode) (r : ConversionResult),
      r ∈ (convertSkills skills targetDir mode conflictResolution now fuel root).1 →
      (r.success = false → r.action = ConvAction.skipped ∧ r.error.isSome = true) ∧
        r.action ≠ ConvAction.backedUp := by
  intro skills
  induction skills with
  | nil => intro root r hr; simp [convertSkills] at hr
  | cons s rest ih =>
    intro root r hr
    rw [convertSkills] at hr
    simp only [List.mem_cons] at hr
    rcases hr with hr | hr
    · subst hr
      rcases h : (convertSkill s targetDir mode conflictResolution now fuel root).1
        with e | cr
      · simp only [h]
        refine ⟨fun _ => ?_, ?_⟩ <;> simp
      · simp only [h]
        rcases convertSkill_ok _ _ _ _ _ _ _ _ h with ⟨_, hsucc, _, hact⟩
        refine ⟨fun hf => absurd hsucc (by rw [hf]; simp), ?_⟩
        rcases hact with ⟨ha, _⟩ | ⟨ha, _⟩ <;> rw [ha]
        · cases mode <;> simp [strategyAction]
        · simp
    · exact ih _ _ hr

/-- C3: batch reconciliation yields exactly one result per entry, in input
order (witnessed by the results projecting back to the input list, so in
particular no entry aborts the processing of later ones), and any failed
result is a skipped result carrying the captured error message. -/
theorem convertSkills_per_entry_isolation (skills : List DetectedSkill)
    (targetDir : TPath) (mode : ConversionMode)
    (conflictResolution : ConflictResolution) (now fuel : Nat) (root : FNode) :
    ((convertSkills skills targetDir mode conflictResolution now fuel root).1).length =
        skills.length ∧
      ((convertSkills skills targetDir mode conflictResolution now fuel root).1).map
        (fun r => r.skill) = skills ∧
      ∀ r ∈ (convertSkills skills targetDir mode conflictResolution now fuel root).1,
        r.success = false → r.action = ConvAction.skipped ∧ r.error.isSome = true := by
  refine ⟨?_, convertSkills_skills_aux _ _ _ _ _ _ _, ?_⟩
  · have := convertSkills_skills_aux targetDir mode conflictResolution now fuel skills root
    calc ((convertSkills skills targetDir mode conflictResolution now fuel root).1).length
        = (((convertSkills skills targetDir mode conflictResolution now fuel root).1).map
            (fun r => r.skill)).length := (List.length_map _ _).symm
      _ = skills.length := by rw [this]
  · intro r hr hf
    exact (convertSkills_failed_aux _ _ _ _ _ _ _ _ hr).1 hf

/-- C3 witness: three entries whose middle one points at a missing path
reconcile to three results in order, and the failed one is skipped with
the captured message. -/
theorem convertSkills_per_entry_isolation_witness :
    (((convertSkills [skillA, skillBMissing, skillC] tgtRoot ConversionMode.symlink
        ConflictResolution.skip 0 8 fsBatch).1).map (fun r => r.skill) =
      [skillA, skillBMissing, skillC]) ∧
      (resBFailed.action = ConvAction.skipped ∧ resBFailed.error.isSome = true) := by
  refine ⟨(convertSkills_per_entry_isolation [skillA, skillBMissing, skillC] tgtRoot
    ConversionMode.symlink ConflictResolution.skip 0 8 fsBatch).2.1, ?_⟩
  exact (convertSkills_per_entry_isolation [skillA, skillBMissing, skillC] tgtRoot
    ConversionMode.symlink ConflictResolution.skip 0 8 fsBatch).2.2 resBFailed
    (by decide) (by decide)

/-! ## C9 -/

/-- C9: every result actually returned by `convertSkill` or
`convertSkills` carries one of the four actions symlinked, copied, moved,
skipped: the "backed-up" tag declared in the result type is never
produced, and a successful non-skip result after any conflict resolution
(including backup) reports the executed strategy's action. -/
theorem conversion_action_exhaustive (skill : DetectedSkill)
    (skills : List DetectedSkill) (targetDir : TPath) (mode : ConversionMode)
    (conflictResolution : ConflictResolution) (now fuel : Nat) (root : FNode) :
    (∀ r, (convertSkill skill targetDir mode conflictResolution now fuel root).1 =
        Except.ok r →
      (r.action = strategyAction mode ∨ r.action = ConvAction.skipped) ∧
        r.action ≠ ConvAction.backedUp) ∧
      ∀ r ∈ (convertSkills skills targetDir mode conflictResolution now fuel root).1,
        r.action ≠ ConvAction.backedUp := by
  constructor
  · intro r h
    rcases convertSkill_ok _ _ _ _ _ _ _ _ h with ⟨_, _, _, hact⟩
    rcases hact with ⟨ha, _⟩ | ⟨ha, _⟩
    · refine ⟨Or.inl ha, ?_⟩
      rw [ha]; cases mode <;> simp [strategyAction]
    · exact ⟨Or.inr ha, by rw [ha]; simp⟩
  · intro r hr
    exact (convertSkills_failed_aux _ _ _ _ _ _ _ _ hr).2

/-- C9 witness: a concrete successful reconciliation, whose action is the
strategy's tag and in particular not "backed-up". -/
theorem conversion_action_exhaustive_witness :
    ((convertSkill skillA tgtRoot ConversionMode.symlink ConflictResolution.backup
        0 8 fsSrcTgt).1 =
      Except.ok { skill := skillA, success := true, action := ConvAction.symlinked,
                  error := none, targetPath := ⟨true, ["tgt", "a"]⟩ }) ∧
      ({ skill := skillA, success := true, action := ConvAction.symlinked,
         error := none,
         targetPath := (⟨true, ["tgt", "a"]⟩ : TPath) } : ConversionResult).action ≠
        ConvAction.backedUp := by
  refine ⟨by rfl, ?_⟩
  exact ((conversion_action_exhaustive skillA [] tgtRoot ConversionMode.symlink
    ConflictResolution.backup 0 8 fsSrcTgt).1 _ (by rfl)).2

/-! ## C6 -/

/-- C6: parsing the leading delimited preamble is total (this function
always returns a mapping, never an error), and both an absent block and a
malformed one (the external parser throwing, or returning null) yield the
empty mapping, for every possible behavior of the external parser. -/
theorem parseFrontmatter_tolerant (yamlP : YamlParse) (content : String) :
    (fmMatch content = none → parseFrontmatter yamlP content = []) ∧
    (∀ b, fmMatch content = some b →
      ((∃ e, yamlP b = Except.error e) ∨ yamlP b = Except.ok none) →
      parseFrontmatter yamlP content = []) := by
  constructor
  · intro h
    simp [parseFrontmatter, h]
  · intro b hb hy
    rcases hy with ⟨e, he⟩ | hn
    · simp [parseFrontmatter, hb, he]
    · simp [parseFrontmatter, hb, hn]

/-- C6 witness: a malformed delimited block and a contents string without
any block both parse to the empty mapping. -/
theorem parseFrontmatter_tolerant_witness :
    parseFrontmatter yamlErr "---\nk: v\n---\nbody" = [] ∧
      parseFrontmatter yamlErr "plain text" = [] :=
  ⟨(parseFrontmatter_tolerant yamlErr "---\nk: v\n---\nbody").2 "k: v" rfl
      (Or.inl ⟨"parse failure", rfl⟩),
    (parseFrontmatter_tolerant yamlErr "plain text").1 rfl⟩

theorem direntList_eq_sumList :
    ∀ (N : Nat) (ch : List (String × FNode)), sizeOf ch ≤ N →
      direntBytes.direntList ch = sumRegularFileBytes.sumList ch := by
  intro N
  induction N with
  | zero =>
    intro ch h
    cases ch with
    | nil => rfl
    | cons a t => exfalso; simp at h
  | succ N ih =>
    intro ch h
    cases ch with
    | nil => rfl
    | cons a t =>
      rcases a with ⟨nm, n⟩
      simp only [List.cons.sizeOf_spec, Prod.mk.sizeOf_spec] at h
      have ht : sizeOf t ≤ N := by
        have h1 : 0 < sizeOf n := by
          cases n <;> simp only [FNode.file.sizeOf_spec, FNode.dir.sizeOf_spec,
            FNode.symlink.sizeOf_spec] <;> omega
        omega
      cases n with
      | file s c e =>
        simp only [direntBytes.direntList, sumRegularFileBytes.sumList, direntBytes]
        rw [ih t ht]
      | symlink tp =>
        simp only [direntBytes.direntList, sumRegularFileBytes.sumList, direntBytes,
          sumRegularFileBytes]
        rw [ih t ht]
      | dir r chd =>
        have hchd : sizeOf chd ≤ N := by
          simp only [FNode.dir.sizeOf_spec] at h
          omega
        cases r with
        | false =>
          simp only [direntBytes.direntList, sumRegularFileBytes.sumList, direntBytes,
            sumRegularFileBytes]
          rw [ih t ht]
        | true =>
          simp only [direntBytes.direntList, sumRegularFileBytes.sumList, direntBytes,
            sumRegularFileBytes]
          rw [ih t ht, ih chd hchd]

theorem direntBytes_eq_spec (r : Bool) (ch : List (String × FNode)) :
    direntBytes (FNode.dir r ch) = sumRegularFileBytes (FNode.dir r ch) := by
  cases r with
  | false => rfl
  | true =>
    show direntBytes.direntList ch = sumRegularFileBytes.sumList ch
    exact direntList_eq_sumList (sizeOf ch) ch le_rfl

/-- C7 (amended): the size field computed for an entry equals the
recursive byte sum of the claim, divided by 1024 and rounded to the
nearest integer (kibibytes, not bytes). -/
theorem entry_size_rounded_kb (fuel : Nat) (root : FNode) (p : TPath) (n : FNode)
    (h : statN fuel root p = Except.ok n) :
    getDirectorySizeKb fuel root p = (sumRegularFileBytes n + 512) / 1024 := by
  unfold getDirectorySizeKb
  rw [h]
  cases n with
  | dir r ch =>
    show (direntBytes (FNode.dir r ch) + 512) / 1024 = _
    rw [direntBytes_eq_spec]
  | file s c e => simp only [sumRegularFileBytes]
  | symlink t => simp only [sumRegularFileBytes]

/-- C7 counterexample: an entry with a single 1-byte regular file is
classified with size field 0, while the recursive byte sum is 1: the
stored field is rounded kibibytes, not bytes. -/
theorem entry_size_not_bytes :
    analyzeSkill yamlErr 8 fsOneByte ⟨true, ["b"]⟩ = Except.ok (some skOneByte) ∧
      skOneByte.sizeKb = 0 ∧ sumRegularFileBytes nodeOneByte = 1 :=
  ⟨rfl, rfl, rfl⟩

/-- C7 witness: a concrete 10-byte entry, whose size field the theorem
evaluates to 0 kibibytes. -/
theorem entry_size_rounded_kb_witness :
    getDirectorySizeKb 8 fsSrcTgt ⟨true, ["src", "a"]⟩ =
      (sumRegularFileBytes (FNode.dir true [("SKILL.md", FNode.file 10 "hello" false)])
        + 512) / 1024 :=
  entry_size_rounded_kb 8 fsSrcTgt ⟨true, ["src", "a"]⟩ _ rfl

/-! ## C8 -/

theorem pbasename_pjoin (p : TPath) (n : String) : pbasename (pjoin p n) = n := by
  simp [pbasename, pjoin]

theorem analyzeSkill_name (yamlP : YamlParse) (fuel : Nat) (root : FNode) (p : TPath)
    (sk : DetectedSkill) (h : analyzeSkill yamlP fuel root p = Except.ok (some sk)) :
    sk.name = pbasename p := by
  unfold analyzeSkill at h
  rcases hex : existsN fuel root (pjoin p "SKILL.md") with _ | _
  · simp [hex] at h
  · simp only [hex] at h
    simp at h
    split at h
    · simp at h
    · simp at h
      subst h
      simp

theorem underscore_append (gname sub : String)
    (h : nameStartsWithUnderscore gname = false) :
    nameStartsWithUnderscore (gname ++ "-" ++ sub) = false := by
  unfold nameStartsWithUnderscore at h ⊢
  rw [String.data_append, String.data_append]
  cases hg : gname.data with
  | nil => simp [show ("-" : String).data = ['-'] from rfl]
  | cons c t =>
    rw [hg] at h
    simpa using h

theorem groupLoop_names (yamlP : YamlParse) (fuel : Nat) (root : FNode)
    (gname : String) (spath : TPath) :
    ∀ (nes : List (String × DKind)) (sk : DetectedSkill),
      sk ∈ groupLoop yamlP fuel root gname spath nes →
      ∃ sub, sk.name = gname ++ "-" ++ sub := by
  intro nes
  induction nes with
  | nil => intro sk h; simp [groupLoop] at h
  | cons a t ih =>
    intro sk h
    rcases a with ⟨nname, nkind⟩
    rw [groupLoop] at h
    split at h
    · split at h
      · simp at h
      · exact ih _ h
      · rcases List.mem_cons.mp h with h1 | h1
        · subst h1; exact ⟨_, rfl⟩
        · exact ih _ h1
    · exact ih _ h

theorem processEntry_no_underscore (yamlP : YamlParse) (fuel : Nat) (root : FNode)
    (dir : TPath) (name : String) (kind : DKind) (l : List DetectedSkill)
    (h : processEntry yamlP fuel root dir name kind = Except.ok l) :
    ∀ sk ∈ l, nameStartsWithUnderscore sk.name = false := by
  intro sk hsk
  unfold processEntry at h
  by_cases hk : kind = DKind.file
  · rw [if_pos hk] at h
    simp at h
    subst h
    simp at hsk
  · rw [if_neg hk] at h
    by_cases hu : nameStartsWithUnderscore name = true
    · rw [if_pos hu] at h
      simp at h
      subst h
      simp at hsk
    · rw [if_neg hu] at h
      dsimp only at h
      have hund : nameStartsWithUnderscore name = false := by simpa using hu
      rcases hre : (if kind = DKind.symlink then realpathN fuel root (pjoin dir name)
          else Except.ok (pjoin dir name)) with e | actual
      · rw [hre] at h
        simp at h
        subst h
        simp at hsk
      · rw [hre] at h
        dsimp only at h
        by_cases hex : existsN fuel root (pjoin actual "SKILL.md") = true
        · rw [if_pos hex] at h
          rcases hana : analyzeSkill yamlP fuel root (pjoin dir name) with e | osk
          · rw [hana] at h
            simp at h
          · rw [hana] at h
            cases osk with
            | none =>
              simp at h
              subst h
              simp at hsk
            | some sk0 =>
              simp at h
              subst h
              simp at hsk
              subst hsk
              rw [analyzeSkill_name _ _ _ _ _ hana, pbasename_pjoin]
              exact hund
        · rw [if_neg hex] at h
          rcases hrd : readdirN fuel root actual with e | nes
          · rw [hrd] at h
            simp at h
            subst h
            simp at hsk
          · rw [hrd] at h
            simp at h
            subst h
            rcases groupLoop_names _ _ _ _ _ _ _ hsk with ⟨sub, hname⟩
            rw [hname]
            exact underscore_append _ _ hund

theorem processEntries_no_underscore (yamlP : YamlParse) (fuel : Nat) (root : FNode)
    (dir : TPath) :
    ∀ (entries : List (String × DKind)) (l : List DetectedSkill),
      processEntries yamlP fuel root dir entries = Except.ok l →
      ∀ sk ∈ l, nameStartsWithUnderscore sk.name = false := by
  intro entries
  induction entries with
  | nil =>
    intro l h sk hsk
    simp [processEntries] at h
    subst h
    simp at hsk
  | cons a t ih =>
    intro l h sk hsk
    rcases a with ⟨name, kind⟩
    rw [processEntries] at h
    rcases hpe : processEntry yamlP fuel root dir name kind with e | l1
    · rw [hpe] at h
      simp at h
    · rw [hpe] at h
      rcases hpes : processEntries yamlP fuel root dir t with e | l2
      · rw [hpes] at h
        simp at h
      · rw [hpes] at h
        simp at h
        subst h
        rcases List.mem_append.mp hsk with hm | hm
        · exact processEntry_no_underscore _ _ _ _ _ _ _ hpe sk hm
        · exact ih _ hpes sk hm

/-- C8: a scan never classifies an entry whose name begins with the
reserved underscore character: every entry in a successful detection has
a name whose first character is not an underscore, so in particular the
"_backup" directory that the reconciler creates under a target root is
never returned as an entry when that root is scanned. -/
theorem scan_excludes_reserved (yamlP : YamlParse) (fuel : Nat) (root : FNode)
    (dir : TPath) (l : List DetectedSkill)
    (h : detectSkills yamlP fuel root dir = Except.ok l) :
    ∀ sk ∈ l, nameStartsWithUnderscore sk.name = false := by
  intro sk hsk
  unfold detectSkills detectSkillsBody at h
  by_cases hex : existsN fuel root dir = false
  · rw [if_pos hex] at h
    simp at h
    subst h
    simp at hsk
  · rw [if_neg hex] at h
    rcases hrd : readdirN fuel root dir with e | entries
    · rw [hrd] at h
      simp at h
    · rw [hrd] at h
      dsimp only at h
      rcases hpes : processEntries yamlP fuel root dir entries with e | l2
      · rw [hpes] at h
        simp at h
      · rw [hpes] at h
        simp at h
        subst h
        exact processEntries_no_underscore _ _ _ _ _ _ hpes sk hsk

/-- C8 witness: scanning a root that contains a populated "_backup"
directory yields only the ordinary entry, whose name does not start with
the reserved character. -/
theorem scan_excludes_reserved_witness :
    detectSkills yamlErr 8 fsReserved ⟨true, []⟩ = Except.ok [skReserved] ∧
      nameStartsWithUnderscore skReserved.name = false :=
  ⟨rfl, scan_excludes_reserved yamlErr 8 fsReserved ⟨true, []⟩ [skReserved] rfl
    skReserved (by decide)⟩

/-- C5 counterexample: scanning a root path that exists but is a regular
file does not yield an entry sequence: the effect fails with the
formatted detection error. -/
theorem scan_fails_on_nondirectory_root :
    detectSkills yamlErr 8 fsRootFile ⟨true, ["f"]⟩ =
      Except.error "Failed to detect skills: ENOTDIR: not a directory" := by
  rfl

/-- C5 (amended): a scan of a missing root yields the empty sequence; any
scan failure is reported in the effect's typed error channel with the
formatted detection message, never as a raw exception; and a first-level
symbolic-link child whose resolution fails is skipped silently,
contributing no entries and no error. -/
theorem scan_safety (yamlP : YamlParse) (fuel : Nat) (root : FNode) (dir : TPath) :
    (existsN fuel root dir = false → detectSkills yamlP fuel root dir = Except.ok []) ∧
      (∀ e, detectSkills yamlP fuel root dir = Except.error e →
        ∃ m, e = "Failed to detect skills: " ++ m) ∧
      (∀ name, (realpathN fuel root (pjoin dir name)).isOk = false →
        processEntry yamlP fuel root dir name DKind.symlink = Except.ok []) := by
  refine ⟨?_, ?_, ?_⟩
  · intro hex
    unfold detectSkills detectSkillsBody
    rw [if_pos hex]
  · intro e he
    unfold detectSkills at he
    rcases hb : detectSkillsBody yamlP fuel root dir with e2 | l
    · rw [hb] at he
      simp at he
      exact ⟨e2, he.symm⟩
    · rw [hb] at he
      simp at he
  · intro name hrp
    unfold processEntry
    rw [if_neg (by decide : ¬(DKind.symlink = DKind.file))]
    by_cases hu : nameStartsWithUnderscore name = true
    · rw [if_pos hu]
    · rw [if_neg hu]
      dsimp only
      rw [if_pos rfl]
      rcases hre : realpathN fuel root (pjoin dir name) with e | a
      · rfl
      · simp [Except.isOk, Except.toBool, hre] at hrp

/-- C5 witness: a missing root scans to the empty sequence, the
non-directory root's failure message carries the detection format, and a
dangling first-level link is processed to no entries and no error. -/
theorem scan_safety_witness :
    detectSkills yamlErr 8 fsNoSrc ⟨true, ["missing"]⟩ = Except.ok [] ∧
      (∃ m, "Failed to detect skills: ENOTDIR: not a directory" =
        "Failed to detect skills: " ++ m) ∧
      processEntry yamlErr 8 fsDangling ⟨true, ["root"]⟩ "dang" DKind.symlink =
        Except.ok [] :=
  ⟨(scan_safety yamlErr 8 fsNoSrc ⟨true, ["missing"]⟩).1 rfl,
    (scan_safety yamlErr 8 fsRootFile ⟨true, ["f"]⟩).2.1 _ rfl,
    (scan_safety yamlErr 8 fsDangling ⟨true, ["root"]⟩).2.2 "dang" rfl⟩

theorem getChild_map_g_ne (p : String) (g : FNode → FNode) (c : String) (h : c ≠ p) :
    ∀ ch : List (String × FNode),
      getChild (ch.map (fun e => if e.1 = p then (e.1, g e.2) else e)) c = getChild ch c := by
  intro ch
  induction ch with
  | nil => rfl
  | cons a t ih =>
    rcases a with ⟨m, w⟩
    dsimp only [List.map_cons]
    by_cases hm : m = p
    · rw [if_pos hm, getChild, getChild]
      subst hm
      rw [if_neg (Ne.symm h), if_neg (Ne.symm h)]
      exact ih
    · rw [if_neg hm, getChild, getChild]
      by_cases hmc : m = c
      · rw [if_pos hmc, if_pos hmc]
      · rw [if_neg hmc, if_neg hmc]
        exact ih

theorem getChild_map_g_eq (p : String) (g : FNode → FNode) :
    ∀ ch : List (String × FNode),
      getChild (ch.map (fun e => if e.1 = p then (e.1, g e.2) else e)) p =
        Option.map g (getChild ch p) := by
  intro ch
  induction ch with
  | nil => rfl
  | cons a t ih =>
    rcases a with ⟨m, w⟩
    dsimp only [List.map_cons]
    by_cases hm : m = p
    · rw [if_pos hm, getChild, getChild, if_pos hm, if_pos hm]
      rfl
    · rw [if_neg hm, getChild, getChild, if_neg hm, if_neg hm]
      exact ih

theorem getChild_append_ne (n : String) (v : FNode) (c : String) (h : c ≠ n) :
    ∀ ch : List (String × FNode), getChild (ch ++ [(n, v)]) c = getChild ch c := by
  intro ch
  induction ch with
  | nil =>
    show (if n = c then some v else getChild ([] : List (String × FNode)) c) =
      getChild ([] : List (String × FNode)) c
    rw [if_neg (Ne.symm h)]
  | cons a t ih =>
    rcases a with ⟨m, w⟩
    rw [List.cons_append, getChild, getChild]
    by_cases hmc : m = c
    · rw [if_pos hmc, if_pos hmc]
    · rw [if_neg hmc, if_neg hmc]
      exact ih

theorem getChild_filter_ne (n : String) (c : String) (h : c ≠ n) :
    ∀ ch : List (String × FNode),
      getChild (ch.filter (fun e => e.1 ≠ n)) c = getChild ch c := by
  intro ch
  induction ch with
  | nil => rfl
  | cons a t ih =>
    rcases a with ⟨m, w⟩
    rw [List.filter_cons]
    by_cases hm : m = n
    · subst hm
      rw [if_neg (by simp), getChild, if_neg (Ne.symm h)]
      exact ih
    · rw [if_pos (by simp [hm]), getChild, getChild]
      by_cases hmc : m = c
      · rw [if_pos hmc, if_pos hmc]
      · rw [if_neg hmc, if_neg hmc]
        exact ih

theorem getChild_setChild_nil_ne (n : String) (v : Option FNode) (c : String)
    (h : c ≠ n) (r : Bool) (ch : List (String × FNode)) :
    walkReal (setChild [] n v (FNode.dir r ch)) [c] = walkReal (FNode.dir r ch) [c] := by
  cases v with
  | some v' =>
    rw [setChild]
    show walkReal (FNode.dir r (if (ch.find? (fun e => e.1 = n)).isSome
      then ch.map (fun e => if e.1 = n then (e.1, v') else e) else ch ++ [(n, v')])) [c] = _
    by_cases hf : (ch.find? (fun e => e.1 = n)).isSome
    · rw [if_pos hf, walkReal, walkReal, getChild_map_g_ne n (fun _ => v') c h]
    · rw [if_neg hf, walkReal, walkReal, getChild_append_ne n v' c h]
  | none =>
    rw [setChild]
    show walkReal (FNode.dir r (ch.filter (fun e => e.1 ≠ n))) [c] = _
    rw [walkReal, walkReal, getChild_filter_ne n c h]

theorem walkReal_append (p q : List String) :
    ∀ node, walkReal node (p ++ q) = (walkReal node p).bind (fun m => walkReal m q) := by
  induction p with
  | nil => intro node; simp [walkReal]
  | cons c t ih =>
    intro node
    cases node with
    | file s ct e => rfl
    | symlink tp => rfl
    | dir r ch =>
      rw [List.cons_append, walkReal, walkReal]
      cases getChild ch c with
      | none => rfl
      | some v => exact ih v

theorem initSeg_nil_iff (q : List String) : initSeg q [] = true ↔ q = [] := by
  cases q with
  | nil => simp [initSeg]
  | cons a t => simp [initSeg]

/-- Frame property of `setChild`: looking up any path that neither runs
along the modified spine nor extends the modified child is unchanged. -/
theorem walkReal_setChild_frame :
    ∀ (P : List String) (root : FNode) (n : String) (v : Option FNode) (q : List String),
      initSeg q P = false → initSeg (P ++ [n]) q = false →
      walkReal (setChild P n v root) q = walkReal root q := by
  intro P
  induction P with
  | nil =>
    intro root n v q hq hnq
    cases q with
    | nil => simp [initSeg] at hq
    | cons c t =>
      have hcn : c ≠ n := by
        intro hc
        subst hc
        simp [initSeg] at hnq
      cases root with
      | file s ct e => rfl
      | symlink tp => rfl
      | dir r ch =>
        have h1 := getChild_setChild_nil_ne n v c hcn r ch
        rw [walkReal] at h1
        rw [walkReal]
        cases hv : v with
        | some v' =>
          rw [setChild]
          show (match getChild (if (ch.find? (fun e => e.1 = n)).isSome
            then ch.map (fun e => if e.1 = n then (e.1, v') else e)
            else ch ++ [(n, v')]) c with
            | some m => walkReal m t
            | none => none) = _
          by_cases hf : (ch.find? (fun e => e.1 = n)).isSome
          · rw [if_pos hf, getChild_map_g_ne n (fun _ => v') c hcn]
          · rw [if_neg hf, getChild_append_ne n v' c hcn]
        | none =>
          rw [setChild]
          show (match getChild (ch.filter (fun e => e.1 ≠ n)) c with
            | some m => walkReal m t
            | none => none) = _
          rw [getChild_filter_ne n c hcn]
  | cons p ps ih =>
    intro root n v q hq hnq
    cases root with
    | file s ct e => rfl
    | symlink tp => rfl
    | dir r ch =>
      cases q with
      | nil => simp [initSeg] at hq
      | cons c t =>
        rw [setChild]
        by_cases hcp : c = p
        · subst hcp
          rw [walkReal, walkReal, getChild_map_g_eq c (setChild ps n v)]
          have hq' : initSeg t ps = false := by
            rw [initSeg] at hq
            simpa using hq
          have hnq' : initSeg (ps ++ [n]) t = false := by
            rw [List.cons_append, initSeg] at hnq
            simpa using hnq
          cases hg : getChild ch c with
          | none => rfl
          | some m =>
            show walkReal (setChild ps n v m) t = walkReal m t
            exact ih m n v t hq' hnq'
        · rw [walkReal, walkReal, getChild_map_g_ne p (setChild ps n v) c hcp]

/-- C10 counterexample: with conflict policy overwrite, a symbolic link
at the target (whose referent is the entry's own source directory), and
the relocate strategy, the reconciliation succeeds but the directory tree
the link references is not left unchanged: it is gone from its original
path after the call (the strategy moved it). -/
theorem overwrite_move_relocates_referent :
    lstatN 8 fsLinkConflict ⟨true, ["tgt", "a"]⟩ =
        Except.ok (FNode.symlink ⟨true, ["src", "a"]⟩) ∧
      (walkReal fsLinkConflict ["src", "a"]).isSome = true ∧
      (convertSkill skillA tgtRoot ConversionMode.move ConflictResolution.overwrite
          0 8 fsLinkConflict).1 =
        Except.ok { skill := skillA, success := true, action := ConvAction.moved,
                    error := none, targetPath := ⟨true, ["tgt", "a"]⟩ } ∧
      walkReal (convertSkill skillA tgtRoot ConversionMode.move
          ConflictResolution.overwrite 0 8 fsLinkConflict).2 ["src", "a"] = none :=
  ⟨rfl, rfl, rfl, rfl⟩

/-- C10 (amended): when the existing target of an overwrite conflict is a
symbolic link, the conflict-resolution step unlinks only the link itself:
the filesystem afterwards is exactly the original with the link entry
removed, so every path that neither lies on the target path's spine nor
extends the target path, in particular the whole directory tree the link
references when it lives elsewhere, is unchanged by conflict handling.
(The strategy executed afterwards may still move the referenced tree, as
the counterexample shows for the relocate strategy on a link to the
entry's own source.) -/
theorem overwrite_symlink_unlinks_only (fuel : Nat) (root : FNode)
    (targetPath : TPath) (rp : List String) (n : String) (r : Bool)
    (ch : List (String × FNode)) (t : TPath)
    (h1 : resolveParent fuel root targetPath = Except.ok (rp, n))
    (h2 : walkReal root rp = some (FNode.dir r ch))
    (h3 : getChild ch n = some (FNode.symlink t)) :
    overwriteTarget fuel root targetPath = Except.ok (setChild rp n none root) ∧
      ∀ q, initSeg q rp = false → initSeg (rp ++ [n]) q = false →
        walkReal (setChild rp n none root) q = walkReal root q := by
  constructor
  · have hw : walkReal root (rp ++ [n]) = some (FNode.symlink t) := by
      rw [walkReal_append, h2]
      show walkReal (FNode.dir r ch) [n] = _
      simp [walkReal, h3]
    have hlst : lstatN fuel root targetPath = Except.ok (FNode.symlink t) := by
      unfold resolveParent at h1
      unfold lstatN
      rcases hl : targetPath.comps.getLast? with _ | lastC
      · rw [hl] at h1
        simp at h1
      · rw [hl] at h1
        rcases hrc : resolveComps root fuel [] targetPath.comps.dropLast with e | rp'
        · rw [hrc] at h1
          simp at h1
        · rw [hrc] at h1
          simp at h1
          rcases h1 with ⟨hrp, hn⟩
          subst hrp
          subst hn
          dsimp only
          rw [hw]
    unfold overwriteTarget
    rw [hlst]
    show unlinkN fuel root targetPath = _
    unfold unlinkN
    rw [h1]
    dsimp only
    rw [h2]
    dsimp only
    rw [h3]
  · intro q hq hnq
    exact walkReal_setChild_frame rp root n none q hq hnq

/-- C10 witness: overwriting the symbolic link /tgt/a of the fixture
removes exactly that link, leaving the referenced tree /src/a unchanged
by the conflict-resolution step. -/
theorem overwrite_symlink_unlinks_only_witness :
    overwriteTarget 8 fsLinkConflict ⟨true, ["tgt", "a"]⟩ =
        Except.ok (setChild ["tgt"] "a" none fsLinkConflict) ∧
      walkReal (setChild ["tgt"] "a" none fsLinkConflict) ["src", "a"] =
        walkReal fsLinkConflict ["src", "a"] := by
  have h := overwrite_symlink_unlinks_only 8 fsLinkConflict ⟨true, ["tgt", "a"]⟩
    ["tgt"] "a" true [("a", FNode.symlink ⟨true, ["src", "a"]⟩)] ⟨true, ["src", "a"]⟩
    rfl rfl rfl
  exact ⟨h.1, h.2 ["src", "a"] (by decide) (by decide)⟩

/-! ## C4 -/

theorem resolveComps_done (root : FNode) (fuel : Nat) (cur rest rp : List String)
    (h : walkToSym root cur rest = WalkRes.done rp) :
    resolveComps root fuel cur rest = Except.ok rp := by
  rw [resolveComps, h]

theorem resolveComps_fail (root : FNode) (fuel : Nat) (cur rest : List String)
    (e : String) (h : walkToSym root cur rest = WalkRes.fail e) :
    resolveComps root fuel cur rest = Except.error e := by
  rw [resolveComps, h]

/-- C4: for every grouping root whose subdirectories sub1 and sub2 each
directly contain a manifest regular file while group contains none, the
scan yields exactly the two entries "group-sub1" and "group-sub2"; and
for every root whose child group directly contains a manifest regular
file, the scan yields exactly the one entry "group" and does not descend
into group's subdirectories. -/
theorem grouping_detection (yamlP : YamlParse) (fuel : Nat)
    (ch1 ch2 chg : List (String × FNode)) (sz1 sz2 szg : Nat) (c1 c2 cg : String)
    (x1 x2 xg : Bool)
    (h1 : getChild ch1 "SKILL.md" = some (FNode.file sz1 c1 x1))
    (h2 : getChild ch2 "SKILL.md" = some (FNode.file sz2 c2 x2))
    (hg : getChild chg "SKILL.md" = some (FNode.file szg cg xg)) :
    (detectSkills yamlP fuel (groupRoot ch1 ch2) ⟨true, []⟩).map
        (List.map DetectedSkill.name) = Except.ok ["group-sub1", "group-sub2"] ∧
      (detectSkills yamlP fuel (flatRoot chg) ⟨true, []⟩).map
        (List.map DetectedSkill.name) = Except.ok ["group"] := by
  constructor
  · set_option maxRecDepth 4096 in
    simp [detectSkills, detectSkillsBody, existsN, statN, realpathN, resolveComps_done,
      resolveComps_fail, walkToSym, walkReal, getChild, readdirN, kindOf, processEntries,
      processEntry, groupLoop, analyzeSkill, lstatN, readFileN, pjoin, pdirname, pbasename,
      nameStartsWithUnderscore, groupRoot, Except.map, Except.isOk, Except.toBool,
      h1, h2]
  · set_option maxRecDepth 4096 in
    simp [detectSkills, detectSkillsBody, existsN, statN, realpathN, resolveComps_done,
      resolveComps_fail, walkToSym, walkReal, getChild, readdirN, kindOf, processEntries,
      processEntry, groupLoop, analyzeSkill, lstatN, readFileN, pjoin, pdirname, pbasename,
      nameStartsWithUnderscore, flatRoot, Except.map, Except.isOk, Except.toBool, hg]

/-- C4 witness: concrete grouping and direct roots; the direct root even
contains a nested manifest-bearing subdirectory, which is not descended
into. -/
theorem grouping_detection_witness :
    (detectSkills yamlErr 8
        (groupRoot [("SKILL.md", FNode.file 3 "x" false)]
          [("SKILL.md", FNode.file 2049 "y" false)]) ⟨true, []⟩).map
        (List.map DetectedSkill.name) = Except.ok ["group-sub1", "group-sub2"] ∧
      (detectSkills yamlErr 8
        (flatRoot [("SKILL.md", FNode.file 1 "z" false),
          ("sub1", FNode.dir true [("SKILL.md", FNode.file 3 "x" false)])])
          ⟨true, []⟩).map
        (List.map DetectedSkill.name) = Except.ok ["group"] :=
  grouping_detection yamlErr 8 _ _ _ 3 2049 1 "x" "y" "z" false false false
    rfl rfl rfl

theorem walkReal_nil (node : FNode) : walkReal node [] = some node := by
  cases node <;> rfl

theorem plainName_spec (c : String) (h : plainName c = true) :
    c ≠ "" ∧ c ≠ "." ∧ c ≠ ".." := by
  simpa [plainName, and_assoc] using h

theorem walkToSym_of_chain :
    ∀ (p : List String) (root : FNode) (cur : List String) (node : FNode),
      walkReal root cur = some node → dirChain node p = true →
      walkToSym root cur p = WalkRes.done (cur ++ p) := by
  intro p
  induction p with
  | nil =>
    intro root cur node hw hc
    rw [List.append_nil]
    rfl
  | cons c t ih =>
    intro root cur node hw hc
    cases node with
    | file s ct e => simp [dirChain] at hc
    | symlink tp => simp [dirChain] at hc
    | dir r ch =>
      rw [dirChain, Bool.and_eq_true] at hc
      rcases hc with ⟨hpc, hrest⟩
      rcases plainName_spec c hpc with ⟨_, hdot, hddot⟩
      cases hg : getChild ch c with
      | none => rw [hg] at hrest; simp at hrest
      | some m =>
        rw [hg] at hrest
        have hrest' : dirChain m t = true := hrest
        have hwc : walkReal root (cur ++ [c]) = some m := by
          rw [walkReal_append, hw]
          show walkReal (FNode.dir r ch) [c] = some m
          rw [walkReal, hg]
          exact walkReal_nil m
        cases m with
        | file s2 c2 e2 => simp [dirChain] at hrest'
        | symlink tp2 => simp [dirChain] at hrest'
        | dir r2 ch2 =>
          rw [walkToSym, if_neg hdot, if_neg hddot, hwc]
          have := ih root (cur ++ [c]) (FNode.dir r2 ch2) hwc hrest'
          rw [this, List.append_assoc]
          rfl

theorem resolveComps_of_chain (root : FNode) (fuel : Nat) (p : List String)
    (h : dirChain root p = true) : resolveComps root fuel [] p = Except.ok p := by
  have := walkToSym_of_chain p root [] root (walkReal_nil root) h
  rw [List.nil_append] at this
  exact resolveComps_done root fuel [] p p this

theorem walkReal_of_chain :
    ∀ (p : List String) (node : FNode), dirChain node p = true →
      ∃ r ch, walkReal node p = some (FNode.dir r ch) := by
  intro p
  induction p with
  | nil =>
    intro node hc
    cases node with
    | file s ct e => simp [dirChain] at hc
    | symlink tp => simp [dirChain] at hc
    | dir r ch => exact ⟨r, ch, rfl⟩
  | cons c t ih =>
    intro node hc
    cases node with
    | file s ct e => simp [dirChain] at hc
    | symlink tp => simp [dirChain] at hc
    | dir r ch =>
      rw [dirChain, Bool.and_eq_true] at hc
      rcases hc with ⟨hpc, hrest⟩
      cases hg : getChild ch c with
      | none => rw [hg] at hrest; simp at hrest
      | some m =>
        rw [hg] at hrest
        rw [walkReal, hg]
        exact ih m hrest

theorem dirChain_dropLast :
    ∀ (p : List String) (node : FNode), dirChain node p = true →
      dirChain node p.dropLast = true := by
  intro p
  induction p with
  | nil => intro node hc; exact hc
  | cons c t ih =>
    intro node hc
    cases node with
    | file s ct e => simp [dirChain] at hc
    | symlink tp => simp [dirChain] at hc
    | dir r ch =>
      rw [dirChain, Bool.and_eq_true] at hc
      rcases hc with ⟨hpc, hrest⟩
      cases t with
      | nil => rfl
      | cons t0 ts =>
        rw [List.dropLast_cons₂, dirChain, Bool.and_eq_true]
        refine ⟨hpc, ?_⟩
        cases hg : getChild ch c with
        | none => rw [hg] at hrest; simp at hrest
        | some m =>
          rw [hg] at hrest
          exact ih m hrest

theorem dirChain_setChild :
    ∀ (P : List String) (node : FNode) (n : String) (v : Option FNode),
      dirChain node P = true → dirChain (setChild P n v node) P = true := by
  intro P
  induction P with
  | nil =>
    intro node n v hc
    cases node with
    | file s ct e => simp [dirChain] at hc
    | symlink tp => simp [dirChain] at hc
    | dir r ch => exact rfl
  | cons c t ih =>
    intro node n v hc
    cases node with
    | file s ct e => simp [dirChain] at hc
    | symlink tp => simp [dirChain] at hc
    | dir r ch =>
      rw [dirChain, Bool.and_eq_true] at hc
      rcases hc with ⟨hpc, hrest⟩
      rw [setChild, dirChain, Bool.and_eq_true]
      refine ⟨hpc, ?_⟩
      rw [getChild_map_g_eq c (setChild t n v)]
      cases hg : getChild ch c with
      | none => rw [hg] at hrest; simp at hrest
      | some m =>
        rw [hg] at hrest
        show dirChain (setChild t n v m) t = true
        exact ih m n v hrest

theorem getChild_find?_none :
    ∀ (ch : List (String × FNode)) (n : String), getChild ch n = none →
      (ch.find? (fun e => e.1 = n)).isSome = false := by
  intro ch n
  induction ch with
  | nil => intro _; rfl
  | cons a t ih =>
    rcases a with ⟨m, w⟩
    intro h
    rw [getChild] at h
    by_cases hm : m = n
    · rw [if_pos hm] at h; exact absurd h (by simp)
    · rw [if_neg hm] at h
      rw [List.find?_cons]
      have : (decide ((m, w).1 = n)) = false := by simp [hm]
      rw [this]
      exact ih h

theorem getChild_append_self (n : String) (v : FNode) :
    ∀ ch : List (String × FNode), getChild ch n = none →
      getChild (ch ++ [(n, v)]) n = some v := by
  intro ch
  induction ch with
  | nil =>
    intro _
    rw [List.nil_append, getChild, if_pos rfl]
  | cons a t ih =>
    rcases a with ⟨m, w⟩
    intro h
    rw [getChild] at h
    by_cases hm : m = n
    · rw [if_pos hm] at h; exact absurd h (by simp)
    · rw [if_neg hm] at h
      rw [List.cons_append, getChild, if_neg hm]
      exact ih h

theorem walkReal_setChild_at :
    ∀ (P : List String) (root : FNode) (r : Bool) (ch : List (String × FNode))
      (n : String) (v : FNode),
      walkReal root P = some (FNode.dir r ch) → getChild ch n = none →
      walkReal (setChild P n (some v) root) (P ++ [n]) = some v := by
  intro P
  induction P with
  | nil =>
    intro root r ch n v hw hn
    rw [walkReal_nil] at hw
    have hroot : root = FNode.dir r ch := Option.some.inj hw
    subst hroot
    rw [setChild]
    show walkReal (FNode.dir r (if (ch.find? (fun e => e.1 = n)).isSome
      then ch.map (fun e => if e.1 = n then (e.1, v) else e) else ch ++ [(n, v)]))
      ([] ++ [n]) = some v
    rw [if_neg (by rw [getChild_find?_none ch n hn]; exact fun hx => nomatch hx)]
    rw [List.nil_append, walkReal, getChild_append_self n v ch hn]
    exact walkReal_nil v
  | cons c t ih =>
    intro root r ch n v hw hn
    cases root with
    | file s ct e => simp [walkReal] at hw
    | symlink tp => simp [walkReal] at hw
    | dir r0 ch0 =>
      rw [walkReal] at hw
      cases hg : getChild ch0 c with
      | none => rw [hg] at hw; simp at hw
      | some m =>
        rw [hg] at hw
        rw [setChild, List.cons_append, walkReal,
          getChild_map_g_eq c (setChild t n (some v)), hg]
        show walkReal (setChild t n (some v) m) (t ++ [n]) = some v
        exact ih m r ch n v hw hn

/-! Path normalization lemmas. -/

theorem normGo_push :
    ∀ (xs : List String), (∀ c ∈ xs, plainName c = true) →
      ∀ (st ys : List String), normGo st (xs ++ ys) = normGo (xs.reverse ++ st) ys := by
  intro xs
  induction xs with
  | nil => intro _ st ys; simp
  | cons c xt ih =>
    intro hx st ys
    have hpc := hx c (List.mem_cons_self c xt)
    rcases plainName_spec c hpc with ⟨_, hdot, hddot⟩
    rw [List.cons_append, normGo, if_neg hdot, if_neg hddot]
    rw [ih (fun d hd => hx d (List.mem_cons_of_mem c hd)) (c :: st) ys]
    rw [List.reverse_cons, List.append_assoc]
    rfl

theorem normGo_dots :
    ∀ (m : Nat) (st ys : List String),
      normGo st (List.replicate m ".." ++ ys) = normGo (st.drop m) ys := by
  intro m
  induction m with
  | zero => intro st ys; simp
  | succ k ih =>
    intro st ys
    rw [List.replicate_succ, List.cons_append, normGo,
      if_neg (by decide : ¬(".." : String) = "."), if_pos rfl]
    rw [ih st.tail ys]
    congr 1
    rw [← List.drop_one, List.drop_drop, Nat.add_comm]

theorem normGo_final :
    ∀ (ys : List String), (∀ c ∈ ys, plainName c = true) →
      ∀ st, normGo st ys = st.reverse ++ ys := by
  intro ys
  induction ys with
  | nil => intro _ st; simp [normGo]
  | cons c t ih =>
    intro hy st
    have hpc := hy c (List.mem_cons_self c t)
    rcases plainName_spec c hpc with ⟨_, hdot, hddot⟩
    rw [normGo, if_neg hdot, if_neg hddot]
    rw [ih (fun d hd => hy d (List.mem_cons_of_mem c hd)) (c :: st)]
    rw [List.reverse_cons, List.append_assoc]
    rfl

theorem pnorm_plain (p : List String) (hp : plainComps p) : pnorm p = p := by
  rw [pnorm, normGo_final p hp []]
  rfl

theorem commonLen_le_left : ∀ (a b : List String), commonLen a b ≤ a.length := by
  intro a
  induction a with
  | nil => intro b; cases b <;> simp [commonLen]
  | cons x xs ih =>
    intro b
    cases b with
    | nil => simp [commonLen]
    | cons y ys =>
      rw [commonLen]
      by_cases hxy : x = y
      · rw [if_pos hxy, List.length_cons]
        exact Nat.succ_le_succ (ih ys)
      · rw [if_neg hxy]
        exact Nat.zero_le _

theorem commonLen_take :
    ∀ (a b : List String), a.take (commonLen a b) = b.take (commonLen a b) := by
  intro a
  induction a with
  | nil => intro b; cases b <;> simp [commonLen]
  | cons x xs ih =>
    intro b
    cases b with
    | nil => simp [commonLen]
    | cons y ys =>
      rw [commonLen]
      by_cases hxy : x = y
      · rw [if_pos hxy]
        rw [List.take_succ_cons, List.take_succ_cons, hxy, ih ys]
      · rw [if_neg hxy]
        simp

theorem presolve_prelative (dc sc : List String) (hd : plainComps dc)
    (hs : plainComps sc) :
    presolve ⟨true, dc⟩ (prelative ⟨true, dc⟩ ⟨true, sc⟩) = ⟨true, sc⟩ := by
  rw [prelative, presolve]
  dsimp only
  rw [if_neg (by simp)]
  congr 1
  rw [pnorm]
  rw [normGo_push dc hd]
  rw [List.append_nil]
  rw [normGo_dots]
  rw [normGo_final (sc.drop (commonLen dc sc))
    (fun c hc => hs c (List.mem_of_mem_drop hc))]
  rw [← List.reverse_take]
  rw [List.reverse_reverse, commonLen_take dc sc, List.take_append_drop]

/-! ## C2: main theorems -/

/-- C2 (amended): for every entry whose source path is a real directory
reachable through plain, symlink-free components, with an existing real
target root and nothing at the target path, reconciling with strategy
link twice yields first the linked result and then
skipped("Already linked"), with the filesystem (and hence the target
path's resolved real path) unchanged between the two calls. -/
theorem link_idempotent (skill : DetectedSkill) (tc sc : List String)
    (conflict : ConflictResolution) (now fuel : Nat) (root : FNode)
    (rT : Bool) (chT : List (String × FNode))
    (hpath : skill.path = ⟨true, sc⟩)
    (hptc : plainComps tc) (hpsc : plainComps sc)
    (hcT : dirChain root tc = true)
    (hcS : dirChain root sc = true)
    (hsne : sc ≠ [])
    (hwT : walkReal root tc = some (FNode.dir rT chT))
    (hmiss : getChild chT skill.name = none) :
    ∃ fs1,
      convertSkill skill ⟨true, tc⟩ ConversionMode.symlink conflict now fuel root =
        (Except.ok { skill := skill, success := true, action := ConvAction.symlinked,
                     error := none, targetPath := pjoin ⟨true, tc⟩ skill.name }, fs1) ∧
      convertSkill skill ⟨true, tc⟩ ConversionMode.symlink conflict now fuel fs1 =
        (Except.ok { skill := skill, success := true, action := ConvAction.skipped,
                     error := some "Already linked",
                     targetPath := pjoin ⟨true, tc⟩ skill.name }, fs1) ∧
      realpathN fuel fs1 (pjoin ⟨true, tc⟩ skill.name) =
        realpathN fuel (convertSkill skill ⟨true, tc⟩ ConversionMode.symlink conflict
          now fuel fs1).2 (pjoin ⟨true, tc⟩ skill.name) := by
  have hname : (tc ++ [skill.name]).getLast? = some skill.name := List.getLast?_concat tc
  have hdrop : (tc ++ [skill.name]).dropLast = tc := List.dropLast_concat
  -- nothing exists at the target path
  have hlt1 : lstatN fuel root (pjoin ⟨true, tc⟩ skill.name) =
      Except.error "ENOENT: no such file or directory" := by
    unfold lstatN
    rw [show (pjoin ⟨true, tc⟩ skill.name).comps = tc ++ [skill.name] from rfl]
    rw [hname, hdrop]
    rw [resolveComps_of_chain root fuel tc hcT]
    dsimp only
    rw [walkReal_append, hwT]
    show (match walkReal (FNode.dir rT chT) [skill.name] with
      | some n => Except.ok n
      | none => Except.error "ENOENT: no such file or directory") = _
    rw [walkReal, hmiss]
  -- the target root exists
  have hens : ensureDir fuel root ⟨true, tc⟩ = Except.ok root := by
    unfold ensureDir existsN statN
    rw [resolveComps_of_chain root fuel tc hcT]
    dsimp only
    rw [hwT]
    rfl
  -- the source path is a real directory
  obtain ⟨rS, chS, hwS⟩ := walkReal_of_chain sc root hcS
  have hlstS : lstatN fuel root skill.path = Except.ok (FNode.dir rS chS) := by
    unfold lstatN
    rw [hpath]
    show (match sc.getLast? with
      | none => Except.ok root
      | some lastC =>
        match resolveComps root fuel [] sc.dropLast with
        | Except.error e => Except.error e
        | Except.ok rp =>
          match walkReal root (rp ++ [lastC]) with
          | some n => Except.ok n
          | none => Except.error "ENOENT: no such file or directory") = _
    rw [List.getLast?_eq_getLast sc hsne]
    rw [resolveComps_of_chain root fuel sc.dropLast (dirChain_dropLast sc root hcS)]
    dsimp only
    rw [List.dropLast_append_getLast hsne, hwS]
  -- creating the relative symbolic link
  have hcreate : createRelativeSymlink fuel root skill.path
      (pjoin ⟨true, tc⟩ skill.name) =
      Except.ok (setChild tc skill.name
        (some (FNode.symlink (prelative (pdirname (pjoin ⟨true, tc⟩ skill.name))
          skill.path))) root) := by
    unfold createRelativeSymlink symlinkN resolveParent
    rw [show (pjoin ⟨true, tc⟩ skill.name).comps = tc ++ [skill.name] from rfl]
    rw [hname, hdrop]
    rw [resolveComps_of_chain root fuel tc hcT]
    dsimp only
    rw [hwT]
    dsimp only
    rw [hmiss]
  set fs1 := setChild tc skill.name
    (some (FNode.symlink (prelative (pdirname (pjoin ⟨true, tc⟩ skill.name))
      skill.path))) root with hfs1
  -- the first call
  have hcall1 : convertSkill skill ⟨true, tc⟩ ConversionMode.symlink conflict now fuel root =
      (Except.ok { skill := skill, success := true, action := ConvAction.symlinked,
                   error := none, targetPath := pjoin ⟨true, tc⟩ skill.name }, fs1) := by
    unfold convertSkill convertSkillCore
    dsimp only
    rw [hlt1]
    dsimp only [Except.isOk, Except.toBool]
    rw [if_neg (by exact fun hx => nomatch hx)]
    unfold doStrategy
    rw [hens]
    dsimp only
    rw [hlstS]
    dsimp only
    rw [hcreate]
  -- facts about the filesystem after linking
  have hcT1 : dirChain fs1 tc = true := dirChain_setChild tc root skill.name _ hcT
  have hw1 : walkReal fs1 (tc ++ [skill.name]) =
      some (FNode.symlink (prelative (pdirname (pjoin ⟨true, tc⟩ skill.name))
        skill.path)) :=
    walkReal_setChild_at tc root rT chT skill.name _ hwT hmiss
  have hlt2 : lstatN fuel fs1 (pjoin ⟨true, tc⟩ skill.name) =
      Except.ok (FNode.symlink (prelative (pdirname (pjoin ⟨true, tc⟩ skill.name))
        skill.path)) := by
    unfold lstatN
    rw [show (pjoin ⟨true, tc⟩ skill.name).comps = tc ++ [skill.name] from rfl]
    rw [hname, hdrop]
    rw [resolveComps_of_chain fs1 fuel tc hcT1]
    dsimp only
    rw [hw1]
  have hpre : presolve (pdirname (pjoin ⟨true, tc⟩ skill.name))
      (prelative (pdirname (pjoin ⟨true, tc⟩ skill.name)) skill.path) =
      presolve1 skill.path := by
    rw [hpath]
    rw [show pdirname (pjoin ⟨true, tc⟩ skill.name) = ⟨true, tc⟩ from by
      unfold pdirname pjoin
      dsimp only
      rw [List.dropLast_concat]]
    rw [presolve_prelative tc sc hptc hpsc]
    unfold presolve1
    rw [pnorm_plain sc hpsc]
  have hisl : isSymlinkTo fuel fs1 (pjoin ⟨true, tc⟩ skill.name) skill.path = true := by
    unfold isSymlinkTo readlinkN
    rw [hlt2]
    dsimp only
    rw [hpre]
    simp
  have hcall2 : convertSkill skill ⟨true, tc⟩ ConversionMode.symlink conflict now fuel fs1 =
      (Except.ok { skill := skill, success := true, action := ConvAction.skipped,
                   error := some "Already linked",
                   targetPath := pjoin ⟨true, tc⟩ skill.name }, fs1) := by
    unfold convertSkill convertSkillCore
    dsimp only
    rw [hlt2]
    dsimp only [Except.isOk, Except.toBool]
    rw [if_pos rfl]
    rw [hisl]
    rfl
  refine ⟨fs1, hcall1, hcall2, ?_⟩
  rw [hcall2]

/-- C2 witness: the two consecutive link reconciliations of the concrete
fixture, evaluated through the theorem. -/
theorem link_idempotent_witness :
    ∃ fs1,
      convertSkill skillA tgtRoot ConversionMode.symlink ConflictResolution.skip
          0 8 fsSrcTgt =
        (Except.ok { skill := skillA, success := true, action := ConvAction.symlinked,
                     error := none, targetPath := pjoin tgtRoot "a" }, fs1) ∧
      convertSkill skillA tgtRoot ConversionMode.symlink ConflictResolution.skip
          0 8 fs1 =
        (Except.ok { skill := skillA, success := true, action := ConvAction.skipped,
                     error := some "Already linked",
                     targetPath := pjoin tgtRoot "a" }, fs1) := by
  obtain ⟨fs1, h1, h2, _⟩ := link_idempotent skillA ["tgt"] ["src", "a"]
    ConflictResolution.skip 0 8 fsSrcTgt true [] rfl (by decide) (by decide)
    rfl rfl (by decide) rfl rfl
  exact ⟨fs1, h1, h2⟩

/-- C2 counterexample: for an entry whose source path is itself a
symbolic link (and whose manifest is present through it), linking twice
into an initially empty target yields linked and then
skipped("Already exists") - not "Already linked" - because the created
link stores the resolved real path while the already-linked check
compares against the unresolved source path. -/
theorem link_idempotent_counterexample :
    (convertSkill skillIndirect tgtRoot ConversionMode.symlink ConflictResolution.skip
        0 8 fsIndirect).1 =
      Except.ok { skill := skillIndirect, success := true,
                  action := ConvAction.symlinked, error := none,
                  targetPath := ⟨true, ["tgt", "a"]⟩ } ∧
      (convertSkill skillIndirect tgtRoot ConversionMode.symlink ConflictResolution.skip
          0 8 (convertSkill skillIndirect tgtRoot ConversionMode.symlink
            ConflictResolution.skip 0 8 fsIndirect).2).1 =
      Except.ok { skill := skillIndirect, success := true,
                  action := ConvAction.skipped, error := some "Already exists",
                  targetPath := ⟨true, ["tgt", "a"]⟩ } :=
  ⟨rfl, rfl⟩

end BetterSkills
